import Mathlib

/-!
# Verification of the formatting-preserving scoped text-replacement engine

Shallow embedding of `word_document_server/utils/formatted_editor.py` and
`word_document_server/utils/editing_utils.py` (repository
`Office-Word-MCP-Server`), together with proofs settling the claims about
the text-replacement core.

Strings are modelled as `List Char` (Python strings indexed by code point);
fonts (`docx.text.font.Font`) are modelled as records of optional attribute
values; a fresh run created by `paragraph.add_run` carries an all-unset font.
-/

set_option maxHeartbeats 1600000

namespace WordMCP

/-- Python string model: a list of characters. -/
abbrev Str := List Char

/-- Model of a `docx.text.font.Font` attribute record: every attribute that the
repository's code reads or writes.  `none` models a Python `None` (unset /
inherited) attribute value.  `color_rgb` is the normalized RGB value reachable
as `font.color.rgb` (`none` when the font has no explicit color), and
`highlight_color` the `WD_COLOR_INDEX` enum value. -/
structure Font where
  name : Option String := none
  size : Option Nat := none
  bold : Option Bool := none
  italic : Option Bool := none
  underline : Option Bool := none
  strike : Option Bool := none
  double_strike : Option Bool := none
  subscript : Option Bool := none
  superscript : Option Bool := none
  all_caps : Option Bool := none
  small_caps : Option Bool := none
  shadow : Option Bool := none
  outline : Option Bool := none
  emboss : Option Bool := none
  imprint : Option Bool := none
  color_rgb : Option Nat := none
  highlight_color : Option Nat := none
deriving DecidableEq, Repr

/-- The font of a freshly created run (`paragraph.add_run`): all attributes
unset. -/
def Font.default : Font := {}

/-- Model of `RunInfo` (and of `editing_utils`' `{'text': ..., 'font': ...}`
dictionaries): a run's text together with its font. -/
structure RunInfo where
  text : Str
  font : Font
deriving DecidableEq, Repr

/-- Model of a `docx` paragraph: its ordered run list plus the font of its
style (`paragraph.style.font`), which the code uses as a fallback. -/
structure Paragraph where
  runs : List RunInfo
  styleFont : Font
deriving DecidableEq, Repr

/-- `paragraph.text`: the concatenation of the runs' texts, in order. -/
def Paragraph.text (p : Paragraph) : Str :=
  (p.runs.map RunInfo.text).flatten

/-- Total text length of a run list. -/
def runsTextLength (runs : List RunInfo) : Nat :=
  ((runs.map RunInfo.text).flatten).length

/-- Text of a run list: concatenation of the runs' texts. -/
def runsText (runs : List RunInfo) : Str :=
  (runs.map RunInfo.text).flatten

/-- `FontFormatter.copy_font_properties` (formatted_editor.py lines 40-94) and
the identical `_copy_font_properties` (editing_utils.py lines 12-43): copy
every attribute of `source` that is set onto `target`; unset source attributes
leave the target attribute unchanged.  The color is copied through
`target_font.color.rgb = source_font.color.rgb` only when the source has an
explicit rgb value, and the highlight color only when set. -/
def copy_font_properties (source : Font) (target : Font) : Font :=
  { name := if source.name.isSome then source.name else target.name
    size := if source.size.isSome then source.size else target.size
    bold := if source.bold.isSome then source.bold else target.bold
    italic := if source.italic.isSome then source.italic else target.italic
    underline := if source.underline.isSome then source.underline else target.underline
    strike := if source.strike.isSome then source.strike else target.strike
    double_strike := if source.double_strike.isSome then source.double_strike else target.double_strike
    subscript := if source.subscript.isSome then source.subscript else target.subscript
    superscript := if source.superscript.isSome then source.superscript else target.superscript
    all_caps := if source.all_caps.isSome then source.all_caps else target.all_caps
    small_caps := if source.small_caps.isSome then source.small_caps else target.small_caps
    shadow := if source.shadow.isSome then source.shadow else target.shadow
    outline := if source.outline.isSome then source.outline else target.outline
    emboss := if source.emboss.isSome then source.emboss else target.emboss
    imprint := if source.imprint.isSome then source.imprint else target.imprint
    color_rgb := if source.color_rgb.isSome then source.color_rgb else target.color_rgb
    highlight_color := if source.highlight_color.isSome then source.highlight_color else target.highlight_color }

/-- `FontFormatter._get_color_rgb` (lines 114-120): `font.color.rgb` when the
font carries a color, else `None`. -/
def get_color_rgb (font : Font) : Option Nat :=
  font.color_rgb

/-- `FontFormatter.fonts_are_equivalent` (lines 96-112): the comparator used to
decide whether two adjacent characters may share one output run.  It compares
`name`, `size`, `bold`, `italic`, `underline`, the rgb color via
`_get_color_rgb`, and `highlight_color`.  (The Python guard
`if not font1 or not font2` never fires on `docx` `Font` objects, which are
always truthy; fonts are correspondingly always present in this model.) -/
def fonts_are_equivalent (font1 font2 : Font) : Bool :=
  font1.name == font2.name
    && font1.size == font2.size
    && font1.bold == font2.bold
    && font1.italic == font2.italic
    && font1.underline == font2.underline
    && get_color_rgb font1 == get_color_rgb font2
    && font1.highlight_color == font2.highlight_color

/-- The comparator as the specification words it ("every tracked attribute of
the FontDescriptor value compares equal, with color compared by normalized RGB
value"): full equality of the attribute record. -/
def fontsEquivalentSpec (font1 font2 : Font) : Bool :=
  font1 == font2

/-- The scan of `ParagraphFormatter._get_font_for_position`'s loop
(lines 171-177): walk the runs accumulating an offset; return the font of the
run whose span contains `position`, or `none` when the scan falls off the end. -/
def findFontInRuns (position : Nat) (runs : List RunInfo) : Option Font :=
  match runs with
  | [] => none
  | r :: rest =>
      if position < r.text.length then some r.font
      else findFontInRuns (position - r.text.length) rest

/-- `ParagraphFormatter._get_font_for_position` (lines 167-182): the run-span
lookup, falling back to the first run's font when the position is past every
run, and to the paragraph style's font when there are no runs at all. -/
def get_font_for_position (position : Nat) (original_runs : List RunInfo)
    (styleFont : Font) : Font :=
  match findFontInRuns position original_runs with
  | some f => f
  | none =>
      match original_runs with
      | r :: _ => r.font
      | [] => styleFont

/-- `ParagraphFormatter._add_formatted_run` (lines 184-187): append a fresh run
holding `text`, with `font`'s set attributes copied onto the fresh run's
all-unset font. -/
def add_formatted_run (paraRuns : List RunInfo) (text : Str) (font : Font) :
    List RunInfo :=
  paraRuns ++ [⟨text, copy_font_properties font Font.default⟩]

/-- The character loop of `ParagraphFormatter.apply_formatted_segment`
(lines 133-165), with the run buffer and its font made explicit.  Each
character at absolute original position `pos` gets the font of its original
position; consecutive characters whose fonts the comparator deems equivalent
share one buffered run; a font change flushes the buffer through
`_add_formatted_run`.  The final buffer is flushed after the loop. -/
def applySegmentAux (paraRuns : List RunInfo) (chars : Str) (pos : Nat)
    (original_runs : List RunInfo) (styleFont : Font)
    (buffer : Str) (bufferFont : Font) : List RunInfo :=
  match chars with
  | [] =>
      if buffer.isEmpty then paraRuns
      else add_formatted_run paraRuns buffer bufferFont
  | c :: rest =>
      let charFont := get_font_for_position pos original_runs styleFont
      if buffer.isEmpty then
        applySegmentAux paraRuns rest (pos + 1) original_runs styleFont [c] charFont
      else if fonts_are_equivalent bufferFont charFont then
        applySegmentAux paraRuns rest (pos + 1) original_runs styleFont
          (buffer ++ [c]) bufferFont
      else
        applySegmentAux (add_formatted_run paraRuns buffer bufferFont) rest
          (pos + 1) original_runs styleFont [c] charFont

/-- `ParagraphFormatter.apply_formatted_segment` (lines 133-165): rebuild the
runs covering `segment_text`, whose first character sat at absolute position
`segment_start_pos` of the original text.  An empty segment appends nothing
(the buffer starts empty and the initial buffered font `None` is never
consulted; `Font.default` stands in for it). -/
def apply_formatted_segment (paraRuns : List RunInfo) (segment_text : Str)
    (original_runs : List RunInfo) (styleFont : Font)
    (segment_start_pos : Nat) : List RunInfo :=
  applySegmentAux paraRuns segment_text segment_start_pos original_runs
    styleFont [] Font.default

/-- Python `haystack.find(needle)` restricted to a full scan from the left:
the least index at which `needle` starts in `haystack`, or `none`. -/
def findSub (haystack needle : Str) : Option Nat :=
  match haystack with
  | [] => if needle.isEmpty then some 0 else none
  | _ :: rest =>
      if needle.isPrefixOf haystack then some 0
      else (findSub rest needle).map (· + 1)

/-- Python `haystack.find(needle, start)` for `start ≤ len(haystack)`: least
match index `≥ start`, or `none` (Python's `-1`). -/
def findFrom (haystack needle : Str) (start : Nat) : Option Nat :=
  (findSub (haystack.drop start) needle).map (· + start)

/-- Python substring containment `needle in haystack`. -/
def containsSub (haystack needle : Str) : Bool :=
  (findSub haystack needle).isSome

/-- Python slice `s[a:b]` for `a ≤ b ≤ len s`. -/
def pySlice (s : Str) (a b : Nat) : Str :=
  (s.drop a).take (b - a)

/-- The `while current_pos < len(full_text)` loop of
`TextReplacer.replace_in_paragraph` (lines 211-237), fuelled: each iteration
either flushes the trailing gap and stops (no further match), or emits the gap
before the match, emits one run holding `replace_text` styled with the font at
the match's start offset, counts the replacement, and resumes right after the
match.  Fuel `full_text.length + 1` is enough for every call with a non-empty
`find_text` (the one configuration the guard lets through). -/
def replaceLoop (fuel : Nat) (full_text find_text replace_text : Str)
    (original_runs : List RunInfo) (styleFont : Font)
    (current_pos : Nat) (paraRuns : List RunInfo) (count : Nat) :
    List RunInfo × Nat :=
  match fuel with
  | 0 => (paraRuns, count)
  | fuel + 1 =>
      if current_pos < full_text.length then
        match findFrom full_text find_text current_pos with
        | none =>
            let remaining_text := pySlice full_text current_pos full_text.length
            (apply_formatted_segment paraRuns remaining_text original_runs
              styleFont current_pos, count)
        | some match_pos =>
            let before_match := pySlice full_text current_pos match_pos
            let paraRuns1 := apply_formatted_segment paraRuns before_match
              original_runs styleFont current_pos
            let match_font := get_font_for_position match_pos original_runs
              styleFont
            let paraRuns2 := add_formatted_run paraRuns1 replace_text match_font
            replaceLoop fuel full_text find_text replace_text original_runs
              styleFont (match_pos + find_text.length) paraRuns2 (count + 1)
      else (paraRuns, count)

/-- `TextReplacer.replace_in_paragraph` (lines 196-239): guard empty or absent
search text (return `0`, paragraph untouched); otherwise snapshot the runs and
full text, clear the paragraph's content, and run the replacement loop.
Returns the rebuilt paragraph and the replacement count. -/
def replace_in_paragraph (p : Paragraph) (find_text replace_text : Str) :
    Paragraph × Nat :=
  if find_text.isEmpty || !containsSub p.text find_text then (p, 0)
  else
    let original_runs := p.runs
    let full_text := p.text
    let (newRuns, count) := replaceLoop (full_text.length + 1) full_text
      find_text replace_text original_runs p.styleFont 0 [] 0
    ({ p with runs := newRuns }, count)

/-- Reference semantics `replace_leftmost_nonoverlapping`: Python
`str.replace` for a non-empty pattern — replace leftmost non-overlapping
occurrences, resuming right after each match (identity when `find = []`, a
case the engine's guard rejects anyway). -/
def replaceAll : Str → Str → Str → Str
  | s, [], _ => s
  | [], _ :: _, _ => []
  | c :: rest, f :: fr, repl =>
      if (f :: fr).isPrefixOf (c :: rest) then
        repl ++ replaceAll ((c :: rest).drop (f :: fr).length) (f :: fr) repl
      else
        c :: replaceAll rest (f :: fr) repl
termination_by s _ _ => s.length
decreasing_by
  · simp only [List.length_cons, List.drop_succ_cons, List.length_drop]
    omega
  · simp

/-- Number of leftmost non-overlapping occurrences of `find` in `s`. -/
def countOccs : Str → Str → Nat
  | _, [] => 0
  | [], _ :: _ => 0
  | c :: rest, f :: fr =>
      if (f :: fr).isPrefixOf (c :: rest) then
        1 + countOccs ((c :: rest).drop (f :: fr).length) (f :: fr)
      else
        countOccs rest (f :: fr)
termination_by s _ => s.length
decreasing_by
  · simp only [List.length_cons, List.drop_succ_cons, List.length_drop]
    omega
  · simp

/-! ## The second implementation: `editing_utils.py` -/

/-- The grouping comparison inlined in `editing_utils.apply_formatted_segment`
(lines 76-84): both fonts truthy (always, for `docx` `Font` objects) and
`name`, `size`, `bold`, `italic`, `underline`, `color.rgb` (when a color is
present, else `None`) and `highlight_color` all equal. -/
def euFontsMatch (font1 font2 : Font) : Bool :=
  font1.name == font2.name
    && font1.size == font2.size
    && font1.bold == font2.bold
    && font1.italic == font2.italic
    && font1.underline == font2.underline
    && font1.color_rgb == font2.color_rgb
    && font1.highlight_color == font2.highlight_color

/-- The per-character font lookup inlined in
`editing_utils.apply_formatted_segment` (lines 56-69): default to the
paragraph style's font, override with the font of the run whose span contains
the position, else (position past every run) with the first run's font when
runs exist. -/
def euCharFont (position : Nat) (original_runs : List RunInfo)
    (styleFont : Font) : Font :=
  match findFontInRuns position original_runs with
  | some f => f
  | none =>
      match original_runs with
      | r :: _ => r.font
      | [] => styleFont

/-- The character loop of `editing_utils.apply_formatted_segment`
(lines 45-98), run buffer and buffered font explicit; flushed runs go through
`paragraph.add_run` + `_copy_font_properties` (`add_formatted_run` here, the
copy helper being identical in both files). -/
def euApplySegmentAux (paraRuns : List RunInfo) (chars : Str) (pos : Nat)
    (original_runs : List RunInfo) (styleFont : Font)
    (buffer : Str) (bufferFont : Font) : List RunInfo :=
  match chars with
  | [] =>
      if buffer.isEmpty then paraRuns
      else add_formatted_run paraRuns buffer bufferFont
  | c :: rest =>
      let charFont := euCharFont pos original_runs styleFont
      if buffer.isEmpty then
        euApplySegmentAux paraRuns rest (pos + 1) original_runs styleFont [c] charFont
      else if euFontsMatch bufferFont charFont then
        euApplySegmentAux paraRuns rest (pos + 1) original_runs styleFont
          (buffer ++ [c]) bufferFont
      else
        euApplySegmentAux (add_formatted_run paraRuns buffer bufferFont) rest
          (pos + 1) original_runs styleFont [c] charFont

/-- `editing_utils.apply_formatted_segment` (lines 45-98). -/
def euApplyFormattedSegment (paraRuns : List RunInfo) (segment_text : Str)
    (original_runs : List RunInfo) (styleFont : Font)
    (segment_start : Nat) : List RunInfo :=
  euApplySegmentAux paraRuns segment_text segment_start original_runs
    styleFont [] Font.default

/-- The match-start font lookup of
`replace_in_paragraph_preserving_formatting` (lines 138-148): paragraph
style's font when there are no runs; otherwise the font of the run whose span
contains `match_start`, else the style font.  (The Python `if ... and not
font_at_match_start` fallback to the last run never fires: `Font` objects are
always truthy.) -/
def euMatchStartFont (match_start : Nat) (original_runs : List RunInfo)
    (styleFont : Font) : Font :=
  match original_runs with
  | [] => styleFont
  | _ => (findFontInRuns match_start original_runs).getD styleFont

/-- The `while` loop of `replace_in_paragraph_preserving_formatting`
(lines 123-155), fuelled like `replaceLoop`. -/
def euReplaceLoop (fuel : Nat) (full_text find_str replace_str : Str)
    (original_runs : List RunInfo) (styleFont : Font)
    (current_pos : Nat) (paraRuns : List RunInfo) (count : Nat) :
    List RunInfo × Nat :=
  match fuel with
  | 0 => (paraRuns, count)
  | fuel + 1 =>
      if current_pos < full_text.length then
        match findFrom full_text find_str current_pos with
        | none =>
            let remaining := pySlice full_text current_pos full_text.length
            (euApplyFormattedSegment paraRuns remaining original_runs
              styleFont current_pos, count)
        | some match_start =>
            let before := pySlice full_text current_pos match_start
            let paraRuns1 := euApplyFormattedSegment paraRuns before
              original_runs styleFont current_pos
            let matchFont := euMatchStartFont match_start original_runs styleFont
            let paraRuns2 := add_formatted_run paraRuns1 replace_str matchFont
            euReplaceLoop fuel full_text find_str replace_str original_runs
              styleFont (match_start + find_str.length) paraRuns2 (count + 1)
      else (paraRuns, count)

/-- `editing_utils.replace_in_paragraph_preserving_formatting`
(lines 100-157): snapshot the runs, join their texts, guard empty/absent
search text, clear the paragraph and run the loop. -/
def replace_in_paragraph_preserving_formatting (p : Paragraph)
    (find_str replace_str : Str) : Paragraph × Nat :=
  let original_runs := p.runs
  let full_text := runsText original_runs
  if find_str.isEmpty || !containsSub full_text find_str then (p, 0)
  else
    let (newRuns, count) := euReplaceLoop (full_text.length + 1) full_text
      find_str replace_str original_runs p.styleFont 0 [] 0
    ({ p with runs := newRuns }, count)

/-! ## Documents, scopes and the two facades -/

/-- A table cell: an ordered list of paragraphs. -/
structure Cell where
  paragraphs : List Paragraph
deriving DecidableEq, Repr

/-- A `docx` table: its rows (each a list of cells) and its declared grid
column count (`len(table.columns)`, which for irregular tables may exceed a
particular row's cell count — `table.cell` then raises `IndexError`). -/
structure Table where
  rows : List (List Cell)
  columnsCount : Nat
deriving DecidableEq, Repr

/-- `table.cell(row, col)`: `none` models the `IndexError` the code guards
against. -/
def Table.cellAt (t : Table) (row col : Nat) : Option Cell :=
  (t.rows.get? row).bind (fun r => r.get? col)

/-- A loaded `docx` document: its paragraph list and table list. -/
structure Document where
  paragraphs : List Paragraph
  tables : List Table
deriving DecidableEq, Repr

/-- The backing file for a document path: absent (`os.path.exists` false),
present and parseable, or present but failing to parse (the `Document(path)`
constructor raises, message `msg`). -/
inductive FileState where
  | absent : FileState
  | corrupt (msg : String) : FileState
  | present (d : Document) : FileState
deriving DecidableEq, Repr

/-- Model of the `ScopeLocation` dataclass (formatted_editor.py lines 12-26):
indices are Python ints (possibly negative), `none` when not supplied. -/
structure ScopeLocation where
  scope_type : String
  paragraph_index : Option Int := none
  table_index : Option Int := none
  row_index : Option Int := none
  col_index : Option Int := none
deriving DecidableEq, Repr

/-- Python rendering of an optional int (`None` when absent). -/
def optIntStr : Option Int → String
  | none => "None"
  | some i => toString i

/-- An ASCII apostrophe, used verbatim inside several of the source's
messages. -/
def aposChar : String := String.mk [Char.ofNat 39]

/-- `ScopeLocation.__str__` (lines 22-26). -/
def ScopeLocation.str (s : ScopeLocation) : String :=
  if s.scope_type == "paragraph" then
    "Paragraph[" ++ optIntStr s.paragraph_index ++ "]"
  else
    "Table[" ++ optIntStr s.table_index ++ "] Cell[" ++ optIntStr s.row_index
      ++ ", " ++ optIntStr s.col_index ++ "]"

/-- The bounds-error message for a paragraph index (line 274). -/
def paragraphIndexError (i : Int) (n : Nat) : String :=
  "Invalid paragraph index: " ++ toString i ++ ". Document has "
    ++ toString n ++ " paragraphs."

/-- The bounds-error message for a table index (line 289). -/
def tableIndexError (i : Int) (n : Nat) : String :=
  "Invalid table index: " ++ toString i ++ ". Document has "
    ++ toString n ++ " tables."

/-- The bounds-error message for a row index (line 295). -/
def rowIndexError (i : Int) (n : Nat) : String :=
  "Invalid row index: " ++ toString i ++ ". Table has "
    ++ toString n ++ " rows."

/-- The bounds-error message for a column index (line 300). -/
def colIndexError (i : Int) (n : Nat) : String :=
  "Invalid column index: " ++ toString i ++ ". Table has "
    ++ toString n ++ " columns."

/-- A successfully resolved scope target: a paragraph index, or a
(table, row, column) cell address, all validated in range. -/
inductive ScopeTarget where
  | para (i : Nat) : ScopeTarget
  | cell (t r c : Nat) : ScopeTarget
deriving DecidableEq, Repr

/-- `FormattedEditor._load_document` (lines 251-260). -/
def load_document (doc_path : String) (file : FileState) :
    Except String Document :=
  match file with
  | .absent => .error ("Document " ++ doc_path ++ " does not exist")
  | .corrupt msg => .error ("Failed to load document: " ++ msg)
  | .present d => .ok d

/-- `FormattedEditor._validate_scope` (lines 262-312), applied to an already
loaded document: validate the scope location and resolve its target, checking
(for a cell scope) the presence of `table_index`, `row_index`, `col_index`,
then the table index against the table count, then the row index against that
table's row count, then the column index against that table's column count,
in that order, failing fast with a distinct message. -/
def validate_scope (doc : Document) (scope : ScopeLocation) :
    Except String ScopeTarget :=
  if scope.scope_type == "paragraph" then
    match scope.paragraph_index with
    | none => .error "Missing paragraph_index for paragraph scope"
    | some i =>
        if 0 ≤ i ∧ i < doc.paragraphs.length then .ok (.para i.toNat)
        else .error (paragraphIndexError i doc.paragraphs.length)
  else if scope.scope_type == "table_cell" then
    match scope.table_index with
    | none => .error "Missing table_index for table_cell scope"
    | some t =>
        match scope.row_index with
        | none => .error "Missing row_index for table_cell scope"
        | some r =>
            match scope.col_index with
            | none => .error "Missing col_index for table_cell scope"
            | some c =>
                if ht : 0 ≤ t ∧ t < doc.tables.length then
                  let table := doc.tables.get ⟨t.toNat, by omega⟩
                  if 0 ≤ r ∧ r < table.rows.length then
                    if 0 ≤ c ∧ c < table.columnsCount then
                      match table.cellAt r.toNat c.toNat with
                      | some _ => .ok (.cell t.toNat r.toNat c.toNat)
                      | none => .error ("Failed to access cell at " ++ scope.str)
                    else .error (colIndexError c table.columnsCount)
                  else .error (rowIndexError r table.rows.length)
                else .error (tableIndexError t doc.tables.length)
  else
    .error ("Invalid scope_type: " ++ scope.scope_type
      ++ ". Must be " ++ aposChar ++ "paragraph" ++ aposChar ++ " or "
      ++ aposChar ++ "table_cell" ++ aposChar)

/-- Replace in every paragraph of a cell (lines 334-339), summing counts. -/
def replaceInCell (cell : Cell) (find_text replace_text : Str) : Cell × Nat :=
  let results := cell.paragraphs.map
    (fun p => replace_in_paragraph p find_text replace_text)
  (⟨results.map Prod.fst⟩, (results.map Prod.snd).sum)

/-- Write paragraph `i` of a document (the in-place mutation of
`doc.paragraphs[i]`). -/
def Document.setPara (d : Document) (i : Nat) (p : Paragraph) : Document :=
  { d with paragraphs := d.paragraphs.set i p }

/-- Write cell `(r, c)` of table `t` of a document. -/
def Document.setCell (d : Document) (t r c : Nat) (cell : Cell) : Document :=
  { d with
    tables := d.tables.modify (fun table =>
      { table with
        rows := table.rows.modify (fun row => row.set c cell) r }) t }

/-- The mutation step of `FormattedEditor.search_and_replace_in_scope`
(lines 325-339) on a resolved target: the updated document and the total
replacement count. -/
def performReplace (doc : Document) (target : ScopeTarget)
    (find_text replace_text : Str) : Document × Nat :=
  match target with
  | .para i =>
      match doc.paragraphs.get? i with
      | some p =>
          let (p2, n) := replace_in_paragraph p find_text replace_text
          (doc.setPara i p2, n)
      | none => (doc, 0)
  | .cell t r c =>
      match (doc.tables.get? t).bind (fun tb => tb.cellAt r c) with
      | some cell =>
          let (cell2, n) := replaceInCell cell find_text replace_text
          (doc.setCell t r c cell2, n)
      | none => (doc, 0)

/-- The structured success payload of
`FormattedEditor.search_and_replace_in_scope` (lines 343-350). -/
structure SRSuccess where
  message : String
  scope : String
  replacements_made : Nat
  find_text : Str
  replace_text : Str
deriving DecidableEq, Repr

/-- Observable outcome of one facade call: the returned dict (`error` key or
success payload), whether `Document(path)` was invoked, and the document
contents written by `save` (`none` when no save happened). -/
structure SRResult (α : Type) where
  result : Except String α
  loaded : Bool
  saved : Option Document
deriving Repr

/-- `FormattedEditor.search_and_replace_in_scope` (lines 314-353): reject an
empty search string before touching the file; load and validate; replace in
the resolved scope; then save unconditionally and report the structured
result. -/
def search_and_replace_in_scope (doc_path : String) (file : FileState)
    (find_text replace_text : Str) (scope : ScopeLocation) :
    SRResult SRSuccess :=
  if find_text.isEmpty then
    ⟨.error "Find text cannot be empty", false, none⟩
  else
    match load_document doc_path file with
    | .error e => ⟨.error e, file matches .corrupt _, none⟩
    | .ok doc =>
        match validate_scope doc scope with
        | .error e => ⟨.error e, true, none⟩
        | .ok target =>
            let (doc2, total) := performReplace doc target find_text replace_text
            ⟨.ok
              { message := "Replaced " ++ aposChar ++ String.mk find_text
                  ++ aposChar ++ " with " ++ aposChar ++ String.mk replace_text
                  ++ aposChar ++ " in " ++ scope.str
                scope := scope.str
                replacements_made := total
                find_text := find_text
                replace_text := replace_text }, true, some doc2⟩

/-- Model of the `scope_identifier: Dict[str, int]` argument of
`search_and_replace_in_scope_util`: each key present or absent. -/
structure ScopeIdentifier where
  paragraph_index : Option Int := none
  table_index : Option Int := none
  row_index : Option Int := none
  col_index : Option Int := none
deriving DecidableEq, Repr

/-- The structured success payload of `search_and_replace_in_scope_util`
(editing_utils.py lines 217-225). -/
structure UtilSuccess where
  message : String
  replacements_made : Nat
  find_text : Str
  replace_text : Str
  scope_type : String
  scope_identifier : ScopeIdentifier
deriving DecidableEq, Repr

/-- `search_and_replace_in_scope_util` (editing_utils.py lines 159-229):
existence check, empty-search check and scope-type check before loading;
then load, validate the identifier and bounds in order, replace via
`replace_in_paragraph_preserving_formatting`, and save only when the total
replacement count is positive.  A `table.cell` `IndexError` (reachable for an
irregular table despite the bounds checks) is caught by the enclosing
`except` clause. -/
def search_and_replace_in_scope_util (doc_path : String) (file : FileState)
    (find_text_str replace_text_str : Str) (scope_type : String)
    (scope_identifier : ScopeIdentifier) : SRResult UtilSuccess :=
  if file matches .absent then
    ⟨.error ("Document " ++ doc_path ++ " does not exist"), false, none⟩
  else if find_text_str.isEmpty then
    ⟨.error "Find text cannot be empty", false, none⟩
  else if !(scope_type == "paragraph" || scope_type == "table_cell") then
    ⟨.error ("Invalid scope_type: " ++ scope_type
      ++ ". Must be " ++ aposChar ++ "paragraph" ++ aposChar ++ " or "
      ++ aposChar ++ "table_cell" ++ aposChar), false, none⟩
  else
    match file with
    | .absent => ⟨.error "", false, none⟩
    | .corrupt msg =>
        ⟨.error ("Failed to search and replace in scope: " ++ msg), true, none⟩
    | .present doc =>
        let success := fun (doc2 : Document) (total : Nat) =>
          (⟨.ok
            { message := "Replaced " ++ toString total ++ " occurrence(s) of "
                ++ aposChar ++ String.mk find_text_str ++ aposChar ++ " with "
                ++ aposChar ++ String.mk replace_text_str ++ aposChar
                ++ " in " ++ scope_type
              replacements_made := total
              find_text := find_text_str
              replace_text := replace_text_str
              scope_type := scope_type
              scope_identifier := scope_identifier },
            true,
            if total > 0 then some doc2 else none⟩ : SRResult UtilSuccess)
        if scope_type == "paragraph" then
          match scope_identifier.paragraph_index with
          | none =>
              ⟨.error ("Missing " ++ aposChar ++ "paragraph_index" ++ aposChar
                ++ " in scope_identifier for paragraph scope"), true, none⟩
          | some i =>
              if hi : 0 ≤ i ∧ i < doc.paragraphs.length then
                let p := doc.paragraphs.get ⟨i.toNat, by omega⟩
                let (p2, n) :=
                  replace_in_paragraph_preserving_formatting p find_text_str
                    replace_text_str
                success (doc.setPara i.toNat p2) n
              else
                ⟨.error (paragraphIndexError i doc.paragraphs.length), true, none⟩
        else
          match scope_identifier.table_index with
          | none =>
              ⟨.error ("Missing " ++ aposChar ++ "table_index" ++ aposChar
                ++ " in scope_identifier for table_cell scope"), true, none⟩
          | some t =>
              match scope_identifier.row_index with
              | none =>
                  ⟨.error ("Missing " ++ aposChar ++ "row_index" ++ aposChar
                    ++ " in scope_identifier for table_cell scope"), true, none⟩
              | some r =>
                  match scope_identifier.col_index with
                  | none =>
                      ⟨.error ("Missing " ++ aposChar ++ "col_index" ++ aposChar
                        ++ " in scope_identifier for table_cell scope"), true, none⟩
                  | some c =>
                      if ht : 0 ≤ t ∧ t < doc.tables.length then
                        let table := doc.tables.get ⟨t.toNat, by omega⟩
                        if 0 ≤ r ∧ r < table.rows.length then
                          if 0 ≤ c ∧ c < table.columnsCount then
                            match table.cellAt r.toNat c.toNat with
                            | some cell =>
                                let results := cell.paragraphs.map (fun p =>
                                  replace_in_paragraph_preserving_formatting p
                                    find_text_str replace_text_str)
                                let cell2 : Cell := ⟨results.map Prod.fst⟩
                                let n := (results.map Prod.snd).sum
                                success (doc.setCell t.toNat r.toNat c.toNat cell2) n
                            | none =>
                                ⟨.error ("Failed to search and replace in scope: "
                                  ++ "IndexError"), true, none⟩
                          else ⟨.error (colIndexError c table.columnsCount), true, none⟩
                        else ⟨.error (rowIndexError r table.rows.length), true, none⟩
                      else ⟨.error (tableIndexError t doc.tables.length), true, none⟩

/-! ## Basic lemmas -/

theorem runsText_nil : runsText [] = [] := rfl

theorem runsText_append (xs ys : List RunInfo) :
    runsText (xs ++ ys) = runsText xs ++ runsText ys := by
  simp [runsText]

theorem paragraph_text_eq_runsText (p : Paragraph) :
    p.text = runsText p.runs := rfl

theorem if_isSome_eq {α : Type} (a : Option α) :
    (if a.isSome then a else none) = a := by
  cases a <;> simp

/-- Copying a font onto a fresh all-unset font reproduces the source font. -/
theorem copy_font_properties_default (f : Font) :
    copy_font_properties f Font.default = f := by
  cases f
  simp only [copy_font_properties, Font.default]
  congr 1 <;> apply if_isSome_eq

theorem fonts_are_equivalent_refl (f : Font) :
    fonts_are_equivalent f f = true := by
  simp [fonts_are_equivalent]

theorem runsText_add_formatted_run (paraRuns : List RunInfo) (t : Str)
    (f : Font) :
    runsText (add_formatted_run paraRuns t f) = runsText paraRuns ++ t := by
  simp [add_formatted_run, runsText_append, runsText]

theorem findFontInRuns_none_of_le (runs : List RunInfo) (pos : Nat)
    (h : runsTextLength runs ≤ pos) : findFontInRuns pos runs = none := by
  induction runs generalizing pos with
  | nil => rfl
  | cons r rest ih =>
      simp only [runsTextLength, List.map_cons, List.flatten_cons,
        List.length_append] at h
      simp only [findFontInRuns]
      rw [if_neg (by omega)]
      exact ih _ (by simpa [runsTextLength] using (by omega :
        ((rest.map RunInfo.text).flatten).length ≤ pos - r.text.length))

theorem runsTextLength_eq (runs : List RunInfo) :
    runsTextLength runs = (runsText runs).length := rfl

/-- Splitting the run-span scan across an append. -/
theorem findFontInRuns_append (xs ys : List RunInfo) (pos : Nat) :
    findFontInRuns pos (xs ++ ys) =
      if pos < runsTextLength xs then findFontInRuns pos xs
      else findFontInRuns (pos - runsTextLength xs) ys := by
  induction xs generalizing pos with
  | nil =>
      simp [runsTextLength, runsText]
  | cons r rest ih =>
      have hlen : runsTextLength (r :: rest) =
          r.text.length + runsTextLength rest := by
        simp [runsTextLength]
      by_cases h1 : pos < r.text.length
      · rw [if_pos (by omega)]
        simp only [List.cons_append, findFontInRuns, if_pos h1]
      · have e1 : findFontInRuns pos ((r :: rest) ++ ys) =
            findFontInRuns (pos - r.text.length) (rest ++ ys) := by
          simp only [List.cons_append, findFontInRuns, if_neg h1,
            List.append_eq]
        have e2 : findFontInRuns pos (r :: rest) =
            findFontInRuns (pos - r.text.length) rest := by
          simp only [findFontInRuns, if_neg h1]
        rw [e1, e2, ih]
        by_cases h2 : pos < runsTextLength (r :: rest)
        · rw [if_pos (by omega), if_pos h2]
        · rw [if_neg (by omega), if_neg h2]
          congr 1
          omega

/-! ## Text of the reconstructed segments -/

theorem applySegmentAux_hom (chars : Str) (paraRuns : List RunInfo)
    (pos : Nat) (original_runs : List RunInfo) (styleFont : Font)
    (buffer : Str) (bufferFont : Font) :
    applySegmentAux paraRuns chars pos original_runs styleFont buffer
        bufferFont =
      paraRuns ++ applySegmentAux [] chars pos original_runs styleFont buffer
        bufferFont := by
  induction chars generalizing paraRuns pos buffer bufferFont with
  | nil =>
      by_cases h : buffer.isEmpty
      · simp [applySegmentAux, h]
      · simp [applySegmentAux, h, add_formatted_run]
  | cons c rest ih =>
      by_cases h : buffer.isEmpty
      · simp only [applySegmentAux, h, if_true]
        exact ih _ _ _ _
      · by_cases h2 : fonts_are_equivalent bufferFont
            (get_font_for_position pos original_runs styleFont)
        · simp only [applySegmentAux, h, h2, Bool.false_eq_true, if_false,
            if_true]
          exact ih _ _ _ _
        · simp only [applySegmentAux, h, h2, Bool.false_eq_true, if_false]
          rw [ih, ih (add_formatted_run [] buffer bufferFont)]
          simp [add_formatted_run]

theorem runsText_applySegmentAux (chars : Str) (paraRuns : List RunInfo)
    (pos : Nat) (original_runs : List RunInfo) (styleFont : Font)
    (buffer : Str) (bufferFont : Font) :
    runsText (applySegmentAux paraRuns chars pos original_runs styleFont
        buffer bufferFont) =
      runsText paraRuns ++ buffer ++ chars := by
  induction chars generalizing paraRuns pos buffer bufferFont with
  | nil =>
      by_cases h : buffer.isEmpty
      · simp_all [applySegmentAux, List.isEmpty_iff]
      · simp [applySegmentAux, h, runsText_add_formatted_run]
  | cons c rest ih =>
      by_cases h : buffer.isEmpty
      · simp only [applySegmentAux, h, if_true, ih]
        simp_all [List.isEmpty_iff]
      · by_cases h2 : fonts_are_equivalent bufferFont
            (get_font_for_position pos original_runs styleFont)
        · simp only [applySegmentAux, h, h2, Bool.false_eq_true, if_false,
            if_true, ih]
          simp
        · simp only [applySegmentAux, h, h2, Bool.false_eq_true, if_false, ih,
            runsText_add_formatted_run]
          simp

theorem runsText_apply_formatted_segment (paraRuns : List RunInfo)
    (segment : Str) (original_runs : List RunInfo) (styleFont : Font)
    (startPos : Nat) :
    runsText (apply_formatted_segment paraRuns segment original_runs styleFont
        startPos) = runsText paraRuns ++ segment := by
  simp [apply_formatted_segment, runsText_applySegmentAux]

/-! ## Search decomposition lemmas -/

theorem isPrefixOf_take_len (xs ys : Str) (h : xs.isPrefixOf ys = true) :
    ys.take xs.length = xs ∧ xs.length ≤ ys.length := by
  induction xs generalizing ys with
  | nil => simp
  | cons a rest ih =>
      cases ys with
      | nil => simp [List.isPrefixOf] at h
      | cons b ys2 =>
          simp only [List.isPrefixOf, Bool.and_eq_true, beq_iff_eq] at h
          obtain ⟨rfl, h2⟩ := h
          obtain ⟨e, hl⟩ := ih ys2 h2
          refine ⟨?_, by simpa using hl⟩
          simpa [List.take] using e

theorem take_append_drop_eq (n : Nat) (l : Str) : l.take n ++ l.drop n = l :=
  List.take_append_drop n l


theorem replaceAll_nil (find repl : Str) :
    replaceAll [] find repl = [] ∨ find = [] := by
  cases find with
  | nil => exact Or.inr rfl
  | cons f fr => exact Or.inl (by simp [replaceAll])

theorem countOccs_nil (find : Str) : countOccs [] find = 0 := by
  cases find with
  | nil => simp [countOccs]
  | cons f fr => simp [countOccs]

/-- When the search never matches, `replaceAll` is the identity and the
occurrence count is zero. -/
theorem findSub_none_spec (s find repl : Str) (h : findSub s find = none) :
    replaceAll s find repl = s ∧ countOccs s find = 0 := by
  induction s with
  | nil =>
      refine ⟨?_, countOccs_nil find⟩
      cases find with
      | nil => simp [replaceAll]
      | cons f fr => simp [replaceAll]
  | cons c rest ih =>
      cases find with
      | nil =>
          exfalso
          unfold findSub at h
          rw [if_pos (by simp)] at h
          exact Option.noConfusion h
      | cons f fr =>
          unfold findSub at h
          cases hp : (f :: fr).isPrefixOf (c :: rest) with
          | true =>
              rw [if_pos hp] at h
              exact absurd h Option.noConfusion
          | false =>
              rw [if_neg (by simp [hp])] at h
              have hrest : findSub rest (f :: fr) = none := by
                cases hr : findSub rest (f :: fr)
                · rfl
                · rw [hr] at h
                  simp at h
              obtain ⟨e1, e2⟩ := ih hrest
              constructor
              · simp only [replaceAll, hp, Bool.false_eq_true, if_false, e1]
              · simp only [countOccs, hp, Bool.false_eq_true, if_false, e2]

/-- Decomposition of `replaceAll` and `countOccs` at the first match. -/
theorem findSub_some_spec (s find repl : Str) (m : Nat) (hf : find ≠ [])
    (h : findSub s find = some m) :
    replaceAll s find repl =
        s.take m ++ repl ++ replaceAll (s.drop (m + find.length)) find repl ∧
      countOccs s find = 1 + countOccs (s.drop (m + find.length)) find ∧
      m + find.length ≤ s.length := by
  induction s generalizing m with
  | nil =>
      exfalso
      cases find with
      | nil => exact absurd rfl hf
      | cons f fr =>
          unfold findSub at h
          rw [if_neg (by simp)] at h
          exact Option.noConfusion h
  | cons c rest ih =>
      cases find with
      | nil => exact absurd rfl hf
      | cons f fr =>
          unfold findSub at h
          cases hp : (f :: fr).isPrefixOf (c :: rest) with
          | true =>
              rw [if_pos hp] at h
              obtain rfl : (0 : Nat) = m := by simpa using h
              obtain ⟨htake, hlen⟩ := isPrefixOf_take_len _ _ hp
              refine ⟨?_, ?_, by simpa using hlen⟩
              · simp only [replaceAll, hp, if_true, List.take_zero,
                  List.nil_append, Nat.zero_add]
              · simp only [countOccs, hp, if_true, Nat.zero_add]
          | false =>
              rw [if_neg (by simp [hp])] at h
              obtain ⟨m2, hm2, rfl⟩ : ∃ m2, findSub rest (f :: fr) = some m2 ∧
                  m2 + 1 = m := by
                cases hr : findSub rest (f :: fr) with
                | none =>
                    rw [hr] at h
                    simp at h
                | some k =>
                    rw [hr] at h
                    exact ⟨k, rfl, by simpa using h⟩
              obtain ⟨e1, e2, e3⟩ := ih m2 hm2
              have hd : (c :: rest).drop (m2 + 1 + (f :: fr).length) =
                  rest.drop (m2 + (f :: fr).length) := by
                have harith : m2 + 1 + (f :: fr).length =
                    (m2 + (f :: fr).length) + 1 := by omega
                rw [harith, List.drop_succ_cons]
              refine ⟨?_, ?_, ?_⟩
              · simp only [replaceAll, hp, Bool.false_eq_true, if_false, e1,
                  hd, List.take_succ_cons, List.cons_append]
              · simp only [countOccs, hp, Bool.false_eq_true, if_false, e2, hd]
              · simp only [List.length_cons]
                simp only [List.length_cons] at e3
                omega

/-! ## The replacement loop: text and count -/

theorem add_formatted_run_hom (xs ys : List RunInfo) (t : Str) (f : Font) :
    add_formatted_run (xs ++ ys) t f = xs ++ add_formatted_run ys t f := by
  simp [add_formatted_run]

theorem apply_formatted_segment_hom (paraRuns : List RunInfo) (seg : Str)
    (original_runs : List RunInfo) (styleFont : Font) (startPos : Nat) :
    apply_formatted_segment paraRuns seg original_runs styleFont startPos =
      paraRuns ++ apply_formatted_segment [] seg original_runs styleFont
        startPos := by
  unfold apply_formatted_segment
  rw [applySegmentAux_hom]

theorem replaceLoop_hom (fuel : Nat) (ft find repl : Str)
    (original_runs : List RunInfo) (st : Font) (cp : Nat)
    (paraRuns : List RunInfo) (cnt : Nat) :
    replaceLoop fuel ft find repl original_runs st cp paraRuns cnt =
      (paraRuns ++ (replaceLoop fuel ft find repl original_runs st cp [] 0).1,
        cnt + (replaceLoop fuel ft find repl original_runs st cp [] 0).2) := by
  induction fuel generalizing cp paraRuns cnt with
  | zero => simp [replaceLoop]
  | succ fuel ih =>
      by_cases hcp : cp < ft.length
      · cases hfind : findFrom ft find cp with
        | none =>
            simp only [replaceLoop, hcp, if_true, hfind]
            rw [apply_formatted_segment_hom paraRuns]
            simp
        | some mp =>
            simp only [replaceLoop, hcp, if_true, hfind]
            rw [ih (mp + find.length) (add_formatted_run
              (apply_formatted_segment paraRuns (pySlice ft cp mp)
                original_runs st cp) repl
              (get_font_for_position mp original_runs st)) (cnt + 1)]
            rw [ih (mp + find.length) (add_formatted_run
              (apply_formatted_segment [] (pySlice ft cp mp)
                original_runs st cp) repl
              (get_font_for_position mp original_runs st)) (0 + 1)]
            rw [apply_formatted_segment_hom paraRuns, add_formatted_run_hom]
            simp only [Prod.mk.injEq]
            constructor
            · simp [List.append_assoc]
            · omega
      · simp [replaceLoop, hcp]

/-- Core correctness of the replacement loop: starting at `cp` with an empty
run accumulator, the produced runs spell exactly the leftmost-nonoverlapping
replacement of the remaining suffix, and the count is the number of
occurrences there. -/
theorem replaceLoop_spec (ft find repl : Str) (original_runs : List RunInfo)
    (st : Font) (hf : find ≠ []) :
    ∀ fuel cp, ft.length + 1 - cp ≤ fuel →
      runsText (replaceLoop fuel ft find repl original_runs st cp [] 0).1 =
          replaceAll (ft.drop cp) find repl ∧
        (replaceLoop fuel ft find repl original_runs st cp [] 0).2 =
          countOccs (ft.drop cp) find := by
  intro fuel
  induction fuel with
  | zero =>
      intro cp hcp
      have : ft.length < cp := by omega
      have hdrop : ft.drop cp = [] := List.drop_eq_nil_of_le (by omega)
      rw [hdrop]
      refine ⟨?_, ?_⟩
      · simp only [replaceLoop, runsText_nil]
        rcases replaceAll_nil find repl with h | h
        · rw [h]
        · exact absurd h hf
      · simp [replaceLoop, countOccs_nil]
  | succ fuel ih =>
      intro cp hcp
      by_cases hlt : cp < ft.length
      · simp only [replaceLoop, hlt, if_true]
        cases hfs : findSub (ft.drop cp) find with
        | none =>
            have hff : findFrom ft find cp = none := by
              simp [findFrom, hfs]
            rw [hff]
            obtain ⟨e1, e2⟩ := findSub_none_spec (ft.drop cp) find repl hfs
            refine ⟨?_, by simp [e2]⟩
            simp only [runsText_apply_formatted_segment, runsText_nil,
              List.nil_append, e1]
            simp only [pySlice]
            rw [List.take_of_length_le (by simp)]
        | some m =>
            have hff : findFrom ft find cp = some (m + cp) := by
              simp [findFrom, hfs]
            simp only [hff]
            obtain ⟨e1, e2, e3⟩ := findSub_some_spec (ft.drop cp) find repl m
              hf hfs
            have hcp2 : ft.length + 1 - (m + cp + find.length) ≤ fuel := by
              have hfpos : 0 < find.length := List.length_pos.mpr hf
              omega
            obtain ⟨r1, r2⟩ := ih (m + cp + find.length) hcp2
            rw [replaceLoop_hom]
            have hslice : pySlice ft cp (m + cp) = (ft.drop cp).take m := by
              simp only [pySlice]
              congr 1
              omega
            have hdd : ft.drop (m + cp + find.length) =
                (ft.drop cp).drop (m + find.length) := by
              rw [List.drop_drop]
              congr 1
              omega
            constructor
            · simp only [runsText_append, runsText_add_formatted_run,
                runsText_apply_formatted_segment, runsText_nil,
                List.nil_append, r1, e1, hslice, hdd, List.append_assoc]
            · simp only [r2, e2, hdd]
      · have hdrop : ft.drop cp = [] := List.drop_eq_nil_of_le (by omega)
        rw [hdrop]
        simp only [replaceLoop, hlt, if_false]
        refine ⟨?_, by simp [countOccs_nil]⟩
        simp only [runsText_nil]
        rcases replaceAll_nil find repl with h | h
        · rw [h]
        · exact absurd h hf

/-- Top-level text/count correctness of `TextReplacer.replace_in_paragraph`. -/
theorem replace_in_paragraph_spec (p : Paragraph) (find repl : Str)
    (hf : find ≠ []) :
    (replace_in_paragraph p find repl).1.text = replaceAll p.text find repl ∧
      (replace_in_paragraph p find repl).2 = countOccs p.text find := by
  have hfe : find.isEmpty = false := by
    cases find with
    | nil => exact absurd rfl hf
    | cons f fr => rfl
  unfold replace_in_paragraph
  cases hc : containsSub p.text find with
  | false =>
      rw [hfe]
      simp only [Bool.false_or, Bool.not_false, if_true]
      have hfs : findSub p.text find = none := by
        unfold containsSub at hc
        cases hx : findSub p.text find
        · rfl
        · rw [hx] at hc
          simp at hc
      obtain ⟨e1, e2⟩ := findSub_none_spec p.text find repl hfs
      exact ⟨e1.symm, e2.symm⟩
  | true =>
      rw [hfe]
      simp only [Bool.false_or, Bool.not_true, if_false]
      obtain ⟨r1, r2⟩ := replaceLoop_spec p.text find repl p.runs p.styleFont
        hf (p.text.length + 1) 0 (by omega)
      rw [List.drop_zero] at r1 r2
      exact ⟨by simpa [paragraph_text_eq_runsText] using r1, r2⟩

/-! ## The `editing_utils` engine: text and count -/

theorem euApplySegmentAux_hom (chars : Str) (paraRuns : List RunInfo)
    (pos : Nat) (original_runs : List RunInfo) (styleFont : Font)
    (buffer : Str) (bufferFont : Font) :
    euApplySegmentAux paraRuns chars pos original_runs styleFont buffer
        bufferFont =
      paraRuns ++ euApplySegmentAux [] chars pos original_runs styleFont
        buffer bufferFont := by
  induction chars generalizing paraRuns pos buffer bufferFont with
  | nil =>
      by_cases h : buffer.isEmpty
      · simp [euApplySegmentAux, h]
      · simp [euApplySegmentAux, h, add_formatted_run]
  | cons c rest ih =>
      by_cases h : buffer.isEmpty
      · simp only [euApplySegmentAux, h, if_true]
        exact ih _ _ _ _
      · by_cases h2 : euFontsMatch bufferFont
            (euCharFont pos original_runs styleFont)
        · simp only [euApplySegmentAux, h, h2, Bool.false_eq_true, if_false,
            if_true]
          exact ih _ _ _ _
        · simp only [euApplySegmentAux, h, h2, Bool.false_eq_true, if_false]
          rw [ih, ih (add_formatted_run [] buffer bufferFont)]
          simp [add_formatted_run]

theorem runsText_euApplySegmentAux (chars : Str) (paraRuns : List RunInfo)
    (pos : Nat) (original_runs : List RunInfo) (styleFont : Font)
    (buffer : Str) (bufferFont : Font) :
    runsText (euApplySegmentAux paraRuns chars pos original_runs styleFont
        buffer bufferFont) =
      runsText paraRuns ++ buffer ++ chars := by
  induction chars generalizing paraRuns pos buffer bufferFont with
  | nil =>
      by_cases h : buffer.isEmpty
      · simp_all [euApplySegmentAux, List.isEmpty_iff]
      · simp [euApplySegmentAux, h, runsText_add_formatted_run]
  | cons c rest ih =>
      by_cases h : buffer.isEmpty
      · simp only [euApplySegmentAux, h, if_true, ih]
        simp_all [List.isEmpty_iff]
      · by_cases h2 : euFontsMatch bufferFont
            (euCharFont pos original_runs styleFont)
        · simp only [euApplySegmentAux, h, h2, Bool.false_eq_true, if_false,
            if_true, ih]
          simp
        · simp only [euApplySegmentAux, h, h2, Bool.false_eq_true, if_false,
            ih, runsText_add_formatted_run]
          simp

theorem runsText_euApplyFormattedSegment (paraRuns : List RunInfo)
    (segment : Str) (original_runs : List RunInfo) (styleFont : Font)
    (startPos : Nat) :
    runsText (euApplyFormattedSegment paraRuns segment original_runs styleFont
        startPos) = runsText paraRuns ++ segment := by
  simp [euApplyFormattedSegment, runsText_euApplySegmentAux]

theorem euApplyFormattedSegment_hom (paraRuns : List RunInfo) (seg : Str)
    (original_runs : List RunInfo) (styleFont : Font) (startPos : Nat) :
    euApplyFormattedSegment paraRuns seg original_runs styleFont startPos =
      paraRuns ++ euApplyFormattedSegment [] seg original_runs styleFont
        startPos := by
  unfold euApplyFormattedSegment
  rw [euApplySegmentAux_hom]

theorem euReplaceLoop_hom (fuel : Nat) (ft find repl : Str)
    (original_runs : List RunInfo) (st : Font) (cp : Nat)
    (paraRuns : List RunInfo) (cnt : Nat) :
    euReplaceLoop fuel ft find repl original_runs st cp paraRuns cnt =
      (paraRuns ++
          (euReplaceLoop fuel ft find repl original_runs st cp [] 0).1,
        cnt + (euReplaceLoop fuel ft find repl original_runs st cp [] 0).2) := by
  induction fuel generalizing cp paraRuns cnt with
  | zero => simp [euReplaceLoop]
  | succ fuel ih =>
      by_cases hcp : cp < ft.length
      · cases hfind : findFrom ft find cp with
        | none =>
            simp only [euReplaceLoop, hcp, if_true, hfind]
            rw [euApplyFormattedSegment_hom paraRuns]
            simp
        | some mp =>
            simp only [euReplaceLoop, hcp, if_true, hfind]
            rw [ih (mp + find.length) (add_formatted_run
              (euApplyFormattedSegment paraRuns (pySlice ft cp mp)
                original_runs st cp) repl
              (euMatchStartFont mp original_runs st)) (cnt + 1)]
            rw [ih (mp + find.length) (add_formatted_run
              (euApplyFormattedSegment [] (pySlice ft cp mp)
                original_runs st cp) repl
              (euMatchStartFont mp original_runs st)) (0 + 1)]
            rw [euApplyFormattedSegment_hom paraRuns, add_formatted_run_hom]
            simp only [Prod.mk.injEq]
            constructor
            · simp [List.append_assoc]
            · omega
      · simp [euReplaceLoop, hcp]

theorem euReplaceLoop_spec (ft find repl : Str) (original_runs : List RunInfo)
    (st : Font) (hf : find ≠ []) :
    ∀ fuel cp, ft.length + 1 - cp ≤ fuel →
      runsText (euReplaceLoop fuel ft find repl original_runs st cp [] 0).1 =
          replaceAll (ft.drop cp) find repl ∧
        (euReplaceLoop fuel ft find repl original_runs st cp [] 0).2 =
          countOccs (ft.drop cp) find := by
  intro fuel
  induction fuel with
  | zero =>
      intro cp hcp
      have hdrop : ft.drop cp = [] := List.drop_eq_nil_of_le (by omega)
      rw [hdrop]
      refine ⟨?_, ?_⟩
      · simp only [euReplaceLoop, runsText_nil]
        rcases replaceAll_nil find repl with h | h
        · rw [h]
        · exact absurd h hf
      · simp [euReplaceLoop, countOccs_nil]
  | succ fuel ih =>
      intro cp hcp
      by_cases hlt : cp < ft.length
      · simp only [euReplaceLoop, hlt, if_true]
        cases hfs : findSub (ft.drop cp) find with
        | none =>
            have hff : findFrom ft find cp = none := by
              simp [findFrom, hfs]
            rw [hff]
            obtain ⟨e1, e2⟩ := findSub_none_spec (ft.drop cp) find repl hfs
            refine ⟨?_, by simp [e2]⟩
            simp only [runsText_euApplyFormattedSegment, runsText_nil,
              List.nil_append, e1]
            simp only [pySlice]
            rw [List.take_of_length_le (by simp)]
        | some m =>
            have hff : findFrom ft find cp = some (m + cp) := by
              simp [findFrom, hfs]
            simp only [hff]
            obtain ⟨e1, e2, e3⟩ := findSub_some_spec (ft.drop cp) find repl m
              hf hfs
            have hcp2 : ft.length + 1 - (m + cp + find.length) ≤ fuel := by
              have hfpos : 0 < find.length := List.length_pos.mpr hf
              omega
            obtain ⟨r1, r2⟩ := ih (m + cp + find.length) hcp2
            rw [euReplaceLoop_hom]
            have hslice : pySlice ft cp (m + cp) = (ft.drop cp).take m := by
              simp only [pySlice]
              congr 1
              omega
            have hdd : ft.drop (m + cp + find.length) =
                (ft.drop cp).drop (m + find.length) := by
              rw [List.drop_drop]
              congr 1
              omega
            constructor
            · simp only [runsText_append, runsText_add_formatted_run,
                runsText_euApplyFormattedSegment, runsText_nil,
                List.nil_append, r1, e1, hslice, hdd, List.append_assoc]
            · simp only [r2, e2, hdd]
      · have hdrop : ft.drop cp = [] := List.drop_eq_nil_of_le (by omega)
        rw [hdrop]
        simp only [euReplaceLoop, hlt, if_false]
        refine ⟨?_, by simp [countOccs_nil]⟩
        simp only [runsText_nil]
        rcases replaceAll_nil find repl with h | h
        · rw [h]
        · exact absurd h hf

/-- Top-level text/count correctness of
`replace_in_paragraph_preserving_formatting`. -/
theorem replace_preserving_spec (p : Paragraph) (find repl : Str)
    (hf : find ≠ []) :
    (replace_in_paragraph_preserving_formatting p find repl).1.text =
        replaceAll p.text find repl ∧
      (replace_in_paragraph_preserving_formatting p find repl).2 =
        countOccs p.text find := by
  have hfe : find.isEmpty = false := by
    cases find with
    | nil => exact absurd rfl hf
    | cons f fr => rfl
  unfold replace_in_paragraph_preserving_formatting
  dsimp only
  rw [← paragraph_text_eq_runsText]
  cases hc : containsSub p.text find with
  | false =>
      rw [hfe]
      simp only [Bool.false_or, Bool.not_false, if_true]
      have hfs : findSub p.text find = none := by
        unfold containsSub at hc
        cases hx : findSub p.text find
        · rfl
        · rw [hx] at hc
          simp at hc
      obtain ⟨e1, e2⟩ := findSub_none_spec p.text find repl hfs
      exact ⟨e1.symm, e2.symm⟩
  | true =>
      rw [hfe]
      simp only [Bool.false_or, Bool.not_true, if_false]
      obtain ⟨r1, r2⟩ := euReplaceLoop_spec p.text find repl p.runs p.styleFont
        hf (p.text.length + 1) 0 (by omega)
      rw [List.drop_zero] at r1 r2
      exact ⟨by simpa [paragraph_text_eq_runsText] using r1, r2⟩

/-! ## Concrete fixtures -/

/-- A plain (all attributes unset) font. -/
def plainFont : Font := {}

/-- A bold font. -/
def boldFont : Font := { bold := some true }

/-- An italic font. -/
def italicFont : Font := { italic := some true }

/-- A struck-through font (differs from `plainFont` only in an attribute the
comparator does not inspect). -/
def strikeFont : Font := { strike := some true }

/-- Scenario B paragraph: text `"AAA"` in a single plain run. -/
def pAAA : Paragraph := ⟨[⟨['A', 'A', 'A'], plainFont⟩], plainFont⟩

/-- Scenario A paragraph: `"Hello "` bold then `"World"` italic. -/
def pHelloWorld : Paragraph :=
  ⟨[⟨['H', 'e', 'l', 'l', 'o', ' '], boldFont⟩,
    ⟨['W', 'o', 'r', 'l', 'd'], italicFont⟩], plainFont⟩

/-! ## Claims C1, C3, C4, C6, C9, C10 -/

/-- C1: for every paragraph (whose text is, by the data model, the
concatenation of its runs' texts), every non-empty search string `S` and
every replacement `R`, `TextReplacer.replace_in_paragraph` leaves the
paragraph's text equal to the original text with all leftmost-first
non-overlapping occurrences of `S` replaced by `R`, and returns the number of
occurrences so replaced. -/
theorem C1_text_equivalence (p : Paragraph) (S R : Str) (hS : S ≠ []) :
    (replace_in_paragraph p S R).1.text = replaceAll p.text S R ∧
      (replace_in_paragraph p S R).2 = countOccs p.text S :=
  replace_in_paragraph_spec p S R hS

/-- Witness for C1 at scenario A: replacing `"World"` with `"Earth"`. -/
theorem C1_witness :
    (['W', 'o', 'r', 'l', 'd'] : Str) ≠ [] ∧
      ((replace_in_paragraph pHelloWorld ['W', 'o', 'r', 'l', 'd']
            ['E', 'a', 'r', 't', 'h']).1.text =
          replaceAll pHelloWorld.text ['W', 'o', 'r', 'l', 'd']
            ['E', 'a', 'r', 't', 'h'] ∧
        (replace_in_paragraph pHelloWorld ['W', 'o', 'r', 'l', 'd']
            ['E', 'a', 'r', 't', 'h']).2 =
          countOccs pHelloWorld.text ['W', 'o', 'r', 'l', 'd']) :=
  ⟨by decide,
    C1_text_equivalence pHelloWorld ['W', 'o', 'r', 'l', 'd']
      ['E', 'a', 'r', 't', 'h'] (by decide)⟩

/-- C3 counterexample: two descriptors that differ in a tracked attribute
(`strike`) which the comparator never inspects — `fonts_are_equivalent`
returns `true` although not every tracked attribute compares equal, refuting
the claimed "if and only if". -/
theorem C3_counterexample :
    ¬ (fonts_are_equivalent strikeFont plainFont = true ↔
        fontsEquivalentSpec strikeFont plainFont = true) := by
  decide

/-- C3 (amended): `fonts_are_equivalent` returns `true` iff the seven
attributes it actually compares — family name, size, bold, italic, underline,
normalized RGB color, and highlight color — are all equal; the remaining
tracked attributes (strike, double-strike, sub/superscript, caps, shadow,
outline, emboss, imprint) are not consulted. -/
theorem C3_comparator_spec (a b : Font) :
    fonts_are_equivalent a b = true ↔
      (a.name = b.name ∧ a.size = b.size ∧ a.bold = b.bold ∧
        a.italic = b.italic ∧ a.underline = b.underline ∧
        get_color_rgb a = get_color_rgb b ∧
        a.highlight_color = b.highlight_color) := by
  simp [fonts_are_equivalent, Bool.and_eq_true, beq_iff_eq, and_assoc]

/-- C4 counterexample: a two-run paragraph queried at position = total text
length returns the FIRST run's descriptor, not the last RunSpan's. -/
theorem C4_counterexample :
    get_font_for_position 2 [⟨['a'], plainFont⟩, ⟨['b'], boldFont⟩]
        strikeFont = plainFont ∧
      ([⟨['a'], plainFont⟩, ⟨['b'], boldFont⟩] :
          List RunInfo).getLast? = some ⟨['b'], boldFont⟩ ∧
      plainFont ≠ boldFont := by
  decide

/-- C4 (amended): when `position` equals the paragraph's total text length,
the lookup deterministically falls back to the FIRST run's descriptor when
runs exist, and to the paragraph-level default descriptor when there are no
runs; it never errors (the function is total). -/
theorem C4_endpos_fallback (runs : List RunInfo) (styleFont : Font)
    (position : Nat) (hpos : position = runsTextLength runs) :
    get_font_for_position position runs styleFont =
      match runs with
      | [] => styleFont
      | r :: _ => r.font := by
  have hnone : findFontInRuns position runs = none :=
    findFontInRuns_none_of_le runs position (by omega)
  cases runs with
  | nil => rfl
  | cons r rest =>
      unfold get_font_for_position
      rw [hnone]

/-- Witness for C4 at a concrete two-run paragraph. -/
theorem C4_witness :
    (2 : Nat) = runsTextLength [⟨['a'], plainFont⟩, ⟨['b'], boldFont⟩] ∧
      get_font_for_position 2 [⟨['a'], plainFont⟩, ⟨['b'], boldFont⟩]
          italicFont =
        match ([⟨['a'], plainFont⟩, ⟨['b'], boldFont⟩] : List RunInfo) with
        | [] => italicFont
        | r :: _ => r.font :=
  ⟨by decide,
    C4_endpos_fallback [⟨['a'], plainFont⟩, ⟨['b'], boldFont⟩] italicFont 2
      (by decide)⟩

/-- C6 counterexample: on scenario B the paragraph ends with three output
runs, not one. -/
theorem C6_counterexample :
    (replace_in_paragraph pAAA ['A'] ['B']).1.runs.length ≠ 1 := by
  decide

/-- C6 (amended): on the `"AAA"` single-plain-run paragraph, replacing `"A"`
with `"B"` yields text `"BBB"` and 3 replacements, but THREE output runs of
`"B"` each: every match's replacement is emitted through
`_add_formatted_run` as its own run and never merged with a neighbouring
replacement run. -/
theorem C6_scenarioB :
    (replace_in_paragraph pAAA ['A'] ['B']).1.text = ['B', 'B', 'B'] ∧
      (replace_in_paragraph pAAA ['A'] ['B']).2 = 3 ∧
      (replace_in_paragraph pAAA ['A'] ['B']).1.runs.map RunInfo.text =
        [['B'], ['B'], ['B']] := by
  decide

/-- C9: the two paragraph-replacement implementations agree at the text
level: same resulting paragraph text and same replacement count, for every
paragraph and every search/replacement pair. -/
theorem C9_implementations_agree (p : Paragraph) (find repl : Str) :
    (replace_in_paragraph p find repl).1.text =
        (replace_in_paragraph_preserving_formatting p find repl).1.text ∧
      (replace_in_paragraph p find repl).2 =
        (replace_in_paragraph_preserving_formatting p find repl).2 := by
  cases find with
  | nil =>
      constructor <;>
        simp [replace_in_paragraph, replace_in_paragraph_preserving_formatting]
  | cons f fr =>
      obtain ⟨a1, a2⟩ := replace_in_paragraph_spec p (f :: fr) repl (by simp)
      obtain ⟨b1, b2⟩ := replace_preserving_spec p (f :: fr) repl (by simp)
      exact ⟨a1.trans b1.symm, a2.trans b2.symm⟩

/-- C10: below the facade, `replace_in_paragraph` with an empty search string
is a guarded no-op: count 0 and the paragraph untouched (its run list is
never cleared). -/
theorem C10_empty_search_noop (p : Paragraph) (repl : Str) :
    replace_in_paragraph p [] repl = (p, 0) := by
  simp [replace_in_paragraph]

/-! ## Facade lemmas -/

/-- Character at index `n` of a string. -/
def strCharAt (s : String) (n : Nat) : Option Char := s.data.get? n

theorem strCharAt_append (s t : String) (n : Nat) (h : n < s.length) :
    strCharAt (s ++ t) n = strCharAt s n := by
  simp only [strCharAt, String.data_append, List.get?_eq_getElem?]
  rw [List.getElem?_append_left (by exact h)]

theorem tableIndexError_charAt (i : Int) (n : Nat) :
    strCharAt (tableIndexError i n) 8 = some 't' := by
  unfold tableIndexError
  rw [String.append_assoc, String.append_assoc, String.append_assoc]
  rw [strCharAt_append _ _ 8 (by decide)]
  decide

theorem rowIndexError_charAt (i : Int) (n : Nat) :
    strCharAt (rowIndexError i n) 8 = some 'r' := by
  unfold rowIndexError
  rw [String.append_assoc, String.append_assoc, String.append_assoc]
  rw [strCharAt_append _ _ 8 (by decide)]
  decide

theorem colIndexError_charAt (i : Int) (n : Nat) :
    strCharAt (colIndexError i n) 8 = some 'c' := by
  unfold colIndexError
  rw [String.append_assoc, String.append_assoc, String.append_assoc]
  rw [strCharAt_append _ _ 8 (by decide)]
  decide

theorem tableIndexError_ne_rowIndexError (i : Int) (n : Nat) (j : Int)
    (m : Nat) : tableIndexError i n ≠ rowIndexError j m := by
  intro h
  have h2 := congrArg (fun s => strCharAt s 8) h
  simp only [tableIndexError_charAt, rowIndexError_charAt] at h2
  exact absurd h2 (by decide)

theorem tableIndexError_ne_colIndexError (i : Int) (n : Nat) (j : Int)
    (m : Nat) : tableIndexError i n ≠ colIndexError j m := by
  intro h
  have h2 := congrArg (fun s => strCharAt s 8) h
  simp only [tableIndexError_charAt, colIndexError_charAt] at h2
  exact absurd h2 (by decide)

theorem rowIndexError_ne_colIndexError (i : Int) (n : Nat) (j : Int)
    (m : Nat) : rowIndexError i n ≠ colIndexError j m := by
  intro h
  have h2 := congrArg (fun s => strCharAt s 8) h
  simp only [rowIndexError_charAt, colIndexError_charAt] at h2
  exact absurd h2 (by decide)

/-- Every error outcome of the `FormattedEditor` facade leaves `saved = none`:
nothing is written on a failed load or a failed validation. -/
theorem facade_error_no_save (doc_path : String) (file : FileState)
    (find_text replace_text : Str) (scope : ScopeLocation) (e : String)
    (h : (search_and_replace_in_scope doc_path file find_text replace_text
        scope).result = .error e) :
    (search_and_replace_in_scope doc_path file find_text replace_text
        scope).saved = none := by
  unfold search_and_replace_in_scope at h ⊢
  by_cases hfe : find_text.isEmpty
  · rw [if_pos hfe]
  · rw [if_neg hfe] at h ⊢
    cases hl : load_document doc_path file with
    | error e2 => rfl
    | ok doc =>
        simp only [hl] at h
        dsimp only
        cases hv : validate_scope doc scope with
        | error e3 => rfl
        | ok target =>
            simp only [hv] at h
            simp at h

/-- A one-paragraph cell with text `"hi"`. -/
def cellW : Cell := ⟨[⟨[⟨['h', 'i'], plainFont⟩], plainFont⟩]⟩

/-- A 2×2 table of `cellW`. -/
def tableW : Table := ⟨[[cellW, cellW], [cellW, cellW]], 2⟩

/-- A document with no body paragraphs and one 2×2 table. -/
def docT : Document := ⟨[], [tableW]⟩

/-- C7: cell-scope validation checks the table index against the table count,
then the row index against that table's row count, then the column index
against that table's column count, in that order; the first out-of-range
index yields its distinct bounds error naming the offending index and the
valid count (later indices are never consulted: the row error holds for every
`c`, the table error for every `r`, `c`); the three error messages are
pairwise distinct; and a failed validation never saves the document. -/
theorem C7_cell_validation_order (doc : Document) (t r c : Int) :
    (¬ (0 ≤ t ∧ t < doc.tables.length) →
      validate_scope doc ⟨"table_cell", none, some t, some r, some c⟩ =
        .error (tableIndexError t doc.tables.length)) ∧
    (∀ table, (0 ≤ t ∧ t < doc.tables.length) →
      doc.tables.get? t.toNat = some table →
      ¬ (0 ≤ r ∧ r < table.rows.length) →
      validate_scope doc ⟨"table_cell", none, some t, some r, some c⟩ =
        .error (rowIndexError r table.rows.length)) ∧
    (∀ table, (0 ≤ t ∧ t < doc.tables.length) →
      doc.tables.get? t.toNat = some table →
      (0 ≤ r ∧ r < table.rows.length) →
      ¬ (0 ≤ c ∧ c < table.columnsCount) →
      validate_scope doc ⟨"table_cell", none, some t, some r, some c⟩ =
        .error (colIndexError c table.columnsCount)) ∧
    (∀ (i : Int) (n : Nat) (j : Int) (m : Nat),
      tableIndexError i n ≠ rowIndexError j m ∧
      tableIndexError i n ≠ colIndexError j m ∧
      rowIndexError i n ≠ colIndexError j m) ∧
    (∀ (doc_path : String) (file : FileState) (F R : Str)
        (scope : ScopeLocation) (e : String),
      (search_and_replace_in_scope doc_path file F R scope).result =
        .error e →
      (search_and_replace_in_scope doc_path file F R scope).saved = none) := by
  have hne : (("table_cell" : String) == "paragraph") = false := by decide
  have heq : (("table_cell" : String) == "table_cell") = true := by decide
  refine ⟨?_, ?_, ?_, ?_, ?_⟩
  · intro ht
    unfold validate_scope
    dsimp only
    rw [hne, heq]
    simp only [Bool.false_eq_true, if_false, if_true]
    rw [dif_neg ht]
  · intro table ht htable hr
    unfold validate_scope
    dsimp only
    rw [hne, heq]
    simp only [Bool.false_eq_true, if_false, if_true]
    rw [dif_pos ht]
    have hlt : t.toNat < doc.tables.length := by omega
    have hget : doc.tables.get ⟨t.toNat, hlt⟩ = table := by
      rw [List.get?_eq_get hlt] at htable
      exact Option.some.inj htable
    rw [hget, if_neg hr]
  · intro table ht htable hrok hc
    unfold validate_scope
    dsimp only
    rw [hne, heq]
    simp only [Bool.false_eq_true, if_false, if_true]
    rw [dif_pos ht]
    have hlt : t.toNat < doc.tables.length := by omega
    have hget : doc.tables.get ⟨t.toNat, hlt⟩ = table := by
      rw [List.get?_eq_get hlt] at htable
      exact Option.some.inj htable
    rw [hget, if_pos hrok, if_neg hc]
  · intro i n j m
    exact ⟨tableIndexError_ne_rowIndexError i n j m,
      tableIndexError_ne_colIndexError i n j m,
      rowIndexError_ne_colIndexError i n j m⟩
  · intro doc_path file F R scope e h
    exact facade_error_no_save doc_path file F R scope e h

/-- Witness for C7 on the concrete 1-table (2×2) document. -/
theorem C7_witness :
    (validate_scope docT ⟨"table_cell", none, some 5, some 0, some 0⟩ =
        .error (tableIndexError 5 1)) ∧
      (validate_scope docT ⟨"table_cell", none, some 0, some 7, some 99⟩ =
        .error (rowIndexError 7 2)) ∧
      (validate_scope docT ⟨"table_cell", none, some 0, some 1, some 3⟩ =
        .error (colIndexError 3 2)) ∧
      tableIndexError 5 1 ≠ rowIndexError 7 2 ∧
      (search_and_replace_in_scope ("t.docx") (.present docT) ['h'] ['y']
          ⟨"table_cell", none, some 5, some 0, some 0⟩).saved = none :=
  ⟨(C7_cell_validation_order docT 5 0 0).1 (by decide),
    (C7_cell_validation_order docT 0 7 99).2.1 tableW (by decide) (by decide)
      (by decide),
    (C7_cell_validation_order docT 0 1 3).2.2.1 tableW (by decide) (by decide)
      (by decide) (by decide),
    ((C7_cell_validation_order docT 0 0 0).2.2.2.1 5 1 7 2).1,
    (C7_cell_validation_order docT 5 0 0).2.2.2.2 ("t.docx") (.present docT)
      ['h'] ['y'] ⟨"table_cell", none, some 5, some 0, some 0⟩
      (tableIndexError 5 1) (by rfl)⟩

/-- C8: an empty search string is rejected by the facade with the structured
error `"Find text cannot be empty"` before any document is loaded and with no
save; this is distinct from the zero-replacement "not found" outcome, which
is reported as success with `replacements_made = 0`. -/
theorem C8_empty_search_rejected :
    (∀ (doc_path : String) (file : FileState) (R : Str)
        (scope : ScopeLocation),
      search_and_replace_in_scope doc_path file [] R scope =
        ⟨.error "Find text cannot be empty", false, none⟩) ∧
    (∀ (doc_path : String) (d : Document) (S R : Str) (i : Nat)
        (p : Paragraph),
      S ≠ [] →
      d.paragraphs.get? i = some p →
      containsSub p.text S = false →
      ∃ ok : SRSuccess,
        (search_and_replace_in_scope doc_path (.present d) S R
            ⟨"paragraph", some (i : Int), none, none, none⟩).result =
          .ok ok ∧
        ok.replacements_made = 0) := by
  constructor
  · intro doc_path file R scope
    simp [search_and_replace_in_scope]
  · intro doc_path d S R i p hS hget hc
    have hfe : S.isEmpty = false := by
      cases S with
      | nil => exact absurd rfl hS
      | cons a l => rfl
    have hi : i < d.paragraphs.length := by
      obtain ⟨h, -⟩ := List.get?_eq_some.mp hget
      exact h
    have hvp : validate_scope d ⟨"paragraph", some (i : Int), none, none,
        none⟩ = .ok (.para i) := by
      unfold validate_scope
      dsimp only
      rw [if_pos (by decide)]
      rw [if_pos (by constructor <;> omega)]
      simp
    have hrep : replace_in_paragraph p S R = (p, 0) := by
      unfold replace_in_paragraph
      rw [hfe, hc]
      simp
    have hperf : performReplace d (.para i) S R = (d.setPara i p, 0) := by
      simp only [performReplace, hget, hrep]
    unfold search_and_replace_in_scope
    rw [if_neg (by simp [hfe])]
    have hload : load_document doc_path (.present d) = .ok d := rfl
    rw [hload]
    dsimp only
    rw [hvp]
    dsimp only
    rw [hperf]
    exact ⟨_, rfl, rfl⟩

/-- A one-paragraph document with text `"hi"`. -/
def docW : Document := ⟨[⟨[⟨['h', 'i'], plainFont⟩], plainFont⟩], []⟩

/-- Witness for C8: an empty search on `docW`, and a non-matching search on
the same document reporting success with count 0. -/
theorem C8_witness :
    (search_and_replace_in_scope ("w.docx") (.present docW) [] ['y']
        ⟨"paragraph", some 0, none, none, none⟩ =
      ⟨.error "Find text cannot be empty", false, none⟩) ∧
      ∃ ok : SRSuccess,
        (search_and_replace_in_scope ("w.docx") (.present docW) ['z'] ['y']
            ⟨"paragraph", some (0 : Int), none, none, none⟩).result =
          .ok ok ∧
        ok.replacements_made = 0 :=
  ⟨(C8_empty_search_rejected).1 ("w.docx") (.present docW) ['y']
      ⟨"paragraph", some 0, none, none, none⟩,
    (C8_empty_search_rejected).2 ("w.docx") docW ['z'] ['y'] 0
      ⟨[⟨['h', 'i'], plainFont⟩], plainFont⟩ (by decide) (by decide)
      (by decide)⟩

/-- Auxiliary: the conditional-save shape used by
`search_and_replace_in_scope_util`. -/
theorem ite_save_none_iff (n : Nat) (d : Document) :
    (if n > 0 then some d else none) = none ↔ n = 0 := by
  split <;> simp <;> omega

/-- C2 (amended): only `search_and_replace_in_scope_util` persists
conditionally — it saves exactly when the total replacement count is
positive; `FormattedEditor.search_and_replace_in_scope`, the facade wired to
the MCP tool, saves unconditionally on every successfully validated call,
even when the count is zero. -/
theorem C2_conditional_save :
    (∀ (doc_path : String) (d : Document) (F R : Str) (stype : String)
        (ident : ScopeIdentifier) (ok : UtilSuccess),
      (search_and_replace_in_scope_util doc_path (.present d) F R stype
          ident).result = .ok ok →
      ((search_and_replace_in_scope_util doc_path (.present d) F R stype
          ident).saved = none ↔ ok.replacements_made = 0)) ∧
    (∀ (doc_path : String) (file : FileState) (F R : Str)
        (scope : ScopeLocation) (ok : SRSuccess),
      (search_and_replace_in_scope doc_path file F R scope).result = .ok ok →
      ∃ d2, (search_and_replace_in_scope doc_path file F R scope).saved =
        some d2) := by
  constructor
  · intro doc_path d F R stype ident ok h
    unfold search_and_replace_in_scope_util at h ⊢
    dsimp only at h ⊢
    by_cases hfe : F.isEmpty = true
    · rw [if_pos hfe] at h
      simp at h
    · rw [if_neg hfe] at h ⊢
      by_cases hst : (!(stype == "paragraph" || stype == "table_cell")) = true
      · rw [if_pos hst] at h
        simp at h
      · rw [if_neg hst] at h ⊢
        by_cases hp : (stype == "paragraph") = true
        · rw [if_pos hp] at h ⊢
          cases hpi : ident.paragraph_index with
          | none =>
              simp only [hpi] at h
              simp at h
          | some i =>
              simp only [hpi] at h ⊢
              by_cases hib : 0 ≤ i ∧ i < d.paragraphs.length
              · rw [dif_pos hib] at h ⊢
                obtain rfl : _ = ok := Except.ok.inj h
                exact ite_save_none_iff _ _
              · rw [dif_neg hib] at h
                simp at h
        · rw [if_neg hp] at h ⊢
          cases hti : ident.table_index with
          | none =>
              simp only [hti] at h
              simp at h
          | some t =>
              simp only [hti] at h ⊢
              cases hri : ident.row_index with
              | none =>
                  simp only [hri] at h
                  simp at h
              | some r =>
                  simp only [hri] at h ⊢
                  cases hci : ident.col_index with
                  | none =>
                      simp only [hci] at h
                      simp at h
                  | some c =>
                      simp only [hci] at h ⊢
                      by_cases htb : 0 ≤ t ∧ t < d.tables.length
                      · rw [dif_pos htb] at h ⊢
                        by_cases hrb : 0 ≤ r ∧
                            r < (d.tables.get ⟨t.toNat, by omega⟩).rows.length
                        · rw [if_pos hrb] at h ⊢
                          by_cases hcb : 0 ≤ c ∧
                              c < (d.tables.get ⟨t.toNat,
                                by omega⟩).columnsCount
                          · rw [if_pos hcb] at h ⊢
                            cases hcell : (d.tables.get ⟨t.toNat,
                                by omega⟩).cellAt r.toNat c.toNat with
                            | none =>
                                simp only [hcell] at h
                                simp at h
                            | some cell =>
                                simp only [hcell] at h ⊢
                                obtain rfl : _ = ok := Except.ok.inj h
                                exact ite_save_none_iff _ _
                          · rw [if_neg hcb] at h
                            simp at h
                        · rw [if_neg hrb] at h
                          simp at h
                      · rw [dif_neg htb] at h
                        simp at h
  · intro doc_path file F R scope ok h
    unfold search_and_replace_in_scope at h ⊢
    by_cases hfe : F.isEmpty
    · rw [if_pos hfe] at h
      simp at h
    · rw [if_neg hfe] at h ⊢
      cases hl : load_document doc_path file with
      | error e2 =>
          simp only [hl] at h
          simp at h
      | ok doc =>
          simp only [hl] at h
          dsimp only at h ⊢
          cases hv : validate_scope doc scope with
          | error e3 =>
              simp only [hv] at h
              simp at h
          | ok target =>
              simp only [hv] at h ⊢
              exact ⟨(performReplace doc target F R).1, rfl⟩

/-- C2 counterexample: a successfully validated call of
`FormattedEditor.search_and_replace_in_scope` whose replacement count is zero
(the search text does not occur) still performs a save — the claimed
"no save when the count is zero" fails on this facade. -/
theorem C2_counterexample :
    (search_and_replace_in_scope ("w2.docx") (.present docW) ['z'] ['y']
          ⟨"paragraph", some 0, none, none, none⟩).result.toOption.map
        SRSuccess.replacements_made = some 0 ∧
      (search_and_replace_in_scope ("w2.docx") (.present docW) ['z'] ['y']
          ⟨"paragraph", some 0, none, none, none⟩).saved ≠ none := by
  constructor
  · rfl
  · decide

/-- The util facade applied to `docW`, replacing `"h"` by `"y"` in paragraph
0 (one replacement). -/
def utilCallW : SRResult UtilSuccess :=
  search_and_replace_in_scope_util ("w.docx") (.present docW) ['h'] ['y']
    "paragraph" ⟨some 0, none, none, none⟩

/-- The success payload of `utilCallW`. -/
def utilOkW : UtilSuccess :=
  utilCallW.result.toOption.getD ⟨"", 0, [], [], "", ⟨none, none, none, none⟩⟩

/-- The FormattedEditor facade's success payload on the same call. -/
def feOkW : SRSuccess :=
  (search_and_replace_in_scope ("w.docx") (.present docW) ['h'] ['y']
      ⟨"paragraph", some 0, none, none, none⟩).result.toOption.getD
    ⟨"", "", 0, [], []⟩

/-- Witness for C2 (amended) at the concrete one-paragraph document. -/
theorem C2_witness :
    (utilCallW.saved = none ↔ utilOkW.replacements_made = 0) ∧
      ∃ d2, (search_and_replace_in_scope ("w.docx") (.present docW) ['h']
          ['y'] ⟨"paragraph", some 0, none, none, none⟩).saved = some d2 :=
  ⟨C2_conditional_save.1 ("w.docx") docW ['h'] ['y'] "paragraph"
      ⟨some 0, none, none, none⟩ utilOkW (by rfl),
    C2_conditional_save.2 ("w.docx") (.present docW) ['h'] ['y']
      ⟨"paragraph", some 0, none, none, none⟩ feOkW (by rfl)⟩

/-! ## Matched spans and offset remapping (for formatting locality) -/

/-- Start offsets of the leftmost non-overlapping matches of `find` in `s`
(the spans the replacement pass substitutes). -/
def matchStarts : Str → Str → List Nat
  | _, [] => []
  | [], _ :: _ => []
  | c :: rest, f :: fr =>
      if (f :: fr).isPrefixOf (c :: rest) then
        0 :: (matchStarts ((c :: rest).drop (f :: fr).length) (f :: fr)).map
          (· + (f :: fr).length)
      else
        (matchStarts rest (f :: fr)).map (· + 1)
termination_by s _ => s.length
decreasing_by
  · simp only [List.length_cons, List.drop_succ_cons, List.length_drop]
    omega
  · simp

/-- A position lies outside every matched span. -/
def outsideSpans (s find : Str) (p : Nat) : Prop :=
  ∀ m ∈ matchStarts s find, p < m ∨ m + find.length ≤ p

/-- Number of matches lying entirely before position `p`. -/
def numMatchesBefore (s find : Str) (p : Nat) : Nat :=
  (matchStarts s find).countP (fun m => decide (m + find.length ≤ p))

/-- The length-delta remapping of an original offset: each match strictly
before `p` removes `find.length` characters and inserts `repl.length`. -/
def remapPos (s find repl : Str) (p : Nat) : Nat :=
  p + numMatchesBefore s find p * repl.length
    - numMatchesBefore s find p * find.length

theorem matchStarts_nil (find : Str) : matchStarts [] find = [] := by
  cases find with
  | nil => simp [matchStarts]
  | cons f fr => simp [matchStarts]

/-- No match at all: no spans. -/
theorem matchStarts_of_none (s find : Str) (h : findSub s find = none) :
    matchStarts s find = [] := by
  induction s with
  | nil => exact matchStarts_nil find
  | cons c rest ih =>
      cases find with
      | nil =>
          exfalso
          unfold findSub at h
          rw [if_pos (by simp)] at h
          exact Option.noConfusion h
      | cons f fr =>
          unfold findSub at h
          cases hp : (f :: fr).isPrefixOf (c :: rest) with
          | true =>
              rw [if_pos hp] at h
              exact absurd h Option.noConfusion
          | false =>
              rw [if_neg (by simp [hp])] at h
              have hrest : findSub rest (f :: fr) = none := by
                cases hr : findSub rest (f :: fr)
                · rfl
                · rw [hr] at h
                  simp at h
              simp only [matchStarts, hp, Bool.false_eq_true, if_false,
                ih hrest, List.map_nil]

/-- Decomposition of the span list at the first match. -/
theorem matchStarts_of_some (s find : Str) (m : Nat) (hf : find ≠ [])
    (h : findSub s find = some m) :
    matchStarts s find =
      m :: (matchStarts (s.drop (m + find.length)) find).map
        (· + (m + find.length)) := by
  induction s generalizing m with
  | nil =>
      exfalso
      cases find with
      | nil => exact absurd rfl hf
      | cons f fr =>
          unfold findSub at h
          rw [if_neg (by simp)] at h
          exact Option.noConfusion h
  | cons c rest ih =>
      cases find with
      | nil => exact absurd rfl hf
      | cons f fr =>
          unfold findSub at h
          cases hp : (f :: fr).isPrefixOf (c :: rest) with
          | true =>
              rw [if_pos hp] at h
              obtain rfl : (0 : Nat) = m := by simpa using h
              simp only [matchStarts, hp, if_true, Nat.zero_add]
          | false =>
              rw [if_neg (by simp [hp])] at h
              obtain ⟨m2, hm2, rfl⟩ : ∃ m2, findSub rest (f :: fr) = some m2 ∧
                  m2 + 1 = m := by
                cases hr : findSub rest (f :: fr) with
                | none =>
                    rw [hr] at h
                    simp at h
                | some k =>
                    rw [hr] at h
                    exact ⟨k, rfl, by simpa using h⟩
              have hd : (c :: rest).drop (m2 + 1 + (f :: fr).length) =
                  rest.drop (m2 + (f :: fr).length) := by
                have harith : m2 + 1 + (f :: fr).length =
                    (m2 + (f :: fr).length) + 1 := by omega
                rw [harith, List.drop_succ_cons]
              simp only [matchStarts, hp, Bool.false_eq_true, if_false,
                ih m2 hm2, hd, List.map_cons, List.map_map]
              congr 1
              apply List.map_congr_left
              intro a ha
              simp only [Function.comp]
              omega

theorem numMatchesBefore_of_none (s find : Str) (p : Nat)
    (h : findSub s find = none) : numMatchesBefore s find p = 0 := by
  simp [numMatchesBefore, matchStarts_of_none s find h]

theorem countP_ext (l : List Nat) (p q : Nat → Bool)
    (h : ∀ a ∈ l, p a = q a) : l.countP p = l.countP q := by
  induction l with
  | nil => rfl
  | cons a t ih =>
      simp only [List.countP_cons, h a (by simp),
        ih (fun b hb => h b (by simp [hb]))]

theorem countP_zero (l : List Nat) (p : Nat → Bool)
    (h : ∀ a ∈ l, p a = false) : l.countP p = 0 := by
  induction l with
  | nil => rfl
  | cons a t ih =>
      simp only [List.countP_cons, h a (by simp),
        ih (fun b hb => h b (by simp [hb]))]
      simp

theorem numMatchesBefore_of_some_lt (s find : Str) (m p : Nat)
    (hf : find ≠ []) (h : findSub s find = some m)
    (hp : p < m + find.length) : numMatchesBefore s find p = 0 := by
  unfold numMatchesBefore
  rw [matchStarts_of_some s find m hf h]
  simp only [List.countP_cons, List.countP_map]
  rw [decide_eq_false (by omega : ¬ (m + find.length ≤ p))]
  rw [countP_zero _ _ (fun a ha => by
    simp only [Function.comp]
    exact decide_eq_false (by omega))]
  simp

theorem numMatchesBefore_of_some_ge (s find : Str) (m p : Nat)
    (hf : find ≠ []) (h : findSub s find = some m)
    (hp : m + find.length ≤ p) :
    numMatchesBefore s find p =
      1 + numMatchesBefore (s.drop (m + find.length)) find
        (p - (m + find.length)) := by
  unfold numMatchesBefore
  rw [matchStarts_of_some s find m hf h]
  simp only [List.countP_cons, List.countP_map]
  rw [decide_eq_true (by omega : m + find.length ≤ p)]
  rw [countP_ext _ _ (fun m2 => decide (m2 + find.length ≤ p - (m + find.length)))
    (fun a ha => by
      simp only [Function.comp]
      by_cases hle : a + find.length ≤ p - (m + find.length)
      · rw [decide_eq_true hle, decide_eq_true (by omega)]
      · rw [decide_eq_false hle, decide_eq_false (by omega)])]
  simp
  omega

/-- Matches occupy disjoint spans below `p`, so the cut text is at most `p`. -/
theorem numMatchesBefore_mul_le (find : Str) (hf : find ≠ []) :
    ∀ n s p, (s : Str).length ≤ n →
      numMatchesBefore s find p * find.length ≤ p := by
  intro n
  induction n with
  | zero =>
      intro s p hs
      have : s = [] := List.length_eq_zero.mp (by omega)
      subst this
      simp [numMatchesBefore, matchStarts_nil]
  | succ n ih =>
      intro s p hs
      cases hfs : findSub s find with
      | none => simp [numMatchesBefore_of_none s find p hfs]
      | some m =>
          by_cases hp : p < m + find.length
          · simp [numMatchesBefore_of_some_lt s find m p hf hfs hp]
          · rw [numMatchesBefore_of_some_ge s find m p hf hfs (by omega)]
            have hfpos : 0 < find.length := List.length_pos.mpr hf
            have hlen : m + find.length ≤ s.length :=
              (findSub_some_spec s find [] m hf hfs).2.2
            have hrec := ih (s.drop (m + find.length)) (p - (m + find.length))
              (by simp only [List.length_drop]; omega)
            rw [Nat.add_mul, Nat.one_mul]
            omega

theorem remapPos_of_none (s find repl : Str) (p : Nat)
    (h : findSub s find = none) : remapPos s find repl p = p := by
  simp [remapPos, numMatchesBefore_of_none s find p h]

theorem remapPos_of_some_lt (s find repl : Str) (m p : Nat) (hf : find ≠ [])
    (h : findSub s find = some m) (hp : p < m) :
    remapPos s find repl p = p := by
  simp [remapPos, numMatchesBefore_of_some_lt s find m p hf h (by omega)]

theorem remapPos_of_some_ge (s find repl : Str) (m p : Nat) (hf : find ≠ [])
    (h : findSub s find = some m) (hp : m + find.length ≤ p) :
    remapPos s find repl p =
      m + repl.length +
        remapPos (s.drop (m + find.length)) find repl
          (p - (m + find.length)) := by
  unfold remapPos
  rw [numMatchesBefore_of_some_ge s find m p hf h hp]
  have hbound := numMatchesBefore_mul_le find hf
    (s.drop (m + find.length)).length (s.drop (m + find.length))
    (p - (m + find.length)) (by omega)
  have hlen : m + find.length ≤ s.length :=
    (findSub_some_spec s find [] m hf h).2.2
  rw [Nat.add_mul, Nat.one_mul, Nat.add_mul, Nat.one_mul]
  omega

/-- Splitting "outside every span" at the first match. -/
theorem outsideSpans_of_some (s find : Str) (m p : Nat) (hf : find ≠ [])
    (h : findSub s find = some m) (hout : outsideSpans s find p) :
    p < m ∨ (m + find.length ≤ p ∧
      outsideSpans (s.drop (m + find.length)) find (p - (m + find.length))) := by
  unfold outsideSpans at hout
  rw [matchStarts_of_some s find m hf h] at hout
  have hm := hout m (by simp)
  rcases hm with hlt | hge
  · exact Or.inl hlt
  · refine Or.inr ⟨hge, ?_⟩
    intro a ha
    have := hout (a + (m + find.length)) (by
      simp only [List.mem_cons, List.mem_map]
      exact Or.inr ⟨a, ha, rfl⟩)
    omega

theorem findFontInRuns_single (t : Str) (f : Font) (j : Nat)
    (hj : j < t.length) : findFontInRuns j [⟨t, f⟩] = some f := by
  simp only [findFontInRuns]
  rw [if_pos hj]

theorem runsTextLength_single (t : Str) (f : Font) :
    runsTextLength [⟨t, f⟩] = t.length := by
  simp [runsTextLength]

/-- Fonts of the runs rebuilt by the segment reconstructor: every character
of the produced output carries a font the comparator deems equivalent to the
font of its original position. -/
theorem applySegmentAux_font (original_runs : List RunInfo) (st : Font) :
    ∀ (chars buffer : Str) (bufferFont : Font) (pos j : Nat),
      buffer.length ≤ pos →
      (∀ jb, jb < buffer.length → fonts_are_equivalent bufferFont
        (get_font_for_position (pos - buffer.length + jb) original_runs st) =
          true) →
      j < buffer.length + chars.length →
      ∃ g, findFontInRuns j
          (applySegmentAux [] chars pos original_runs st buffer bufferFont) =
            some g ∧
        fonts_are_equivalent g
          (get_font_for_position (pos - buffer.length + j) original_runs st) =
            true := by
  intro chars
  induction chars with
  | nil =>
      intro buffer bufferFont pos j hlen hinv hj
      have hbne : buffer.isEmpty = false := by
        cases buffer with
        | nil => simp at hj
        | cons b bs => rfl
      simp only [applySegmentAux, hbne, Bool.false_eq_true, if_false,
        add_formatted_run, List.nil_append]
      refine ⟨copy_font_properties bufferFont Font.default, ?_, ?_⟩
      · exact findFontInRuns_single buffer _ j (by simpa using hj)
      · rw [copy_font_properties_default]
        exact hinv j (by simpa using hj)
  | cons c rest ih =>
      intro buffer bufferFont pos j hlen hinv hj
      by_cases hbe : buffer.isEmpty = true
      · have hb : buffer = [] := List.isEmpty_iff.mp hbe
        subst hb
        simp only [applySegmentAux, List.isEmpty_nil, if_true]
        have hres := ih [c]
          (get_font_for_position pos original_runs st) (pos + 1) j
          (by simp)
          (fun jb hjb => by
            have hjb0 : jb = 0 := by simpa using hjb
            subst hjb0
            have he : pos + 1 - [c].length + 0 = pos := by simp
            rw [he]
            exact fonts_are_equivalent_refl _)
          (by
            simp only [List.length_cons, List.length_nil] at hj ⊢
            omega)
        obtain ⟨g, hg1, hg2⟩ := hres
        refine ⟨g, hg1, ?_⟩
        have he2 : pos + 1 - [c].length + j = pos - ([] : Str).length + j := by
          simp
        rw [he2] at hg2
        exact hg2
      · have hbne : buffer.isEmpty = false := by simpa using hbe
        by_cases heqv : fonts_are_equivalent bufferFont
            (get_font_for_position pos original_runs st) = true
        · simp only [applySegmentAux, hbne, Bool.false_eq_true, if_false,
            heqv, if_true]
          have hres := ih (buffer ++ [c]) bufferFont (pos + 1) j
            (by simp; omega)
            (fun jb hjb => by
              simp only [List.length_append, List.length_cons,
                List.length_nil] at hjb
              by_cases hlt : jb < buffer.length
              · have he : pos + 1 - (buffer ++ [c]).length + jb =
                    pos - buffer.length + jb := by
                  simp only [List.length_append, List.length_cons,
                    List.length_nil]
                  omega
                rw [he]
                exact hinv jb hlt
              · have hjb2 : jb = buffer.length := by omega
                subst hjb2
                have he : pos + 1 - (buffer ++ [c]).length + buffer.length =
                    pos := by
                  simp only [List.length_append, List.length_cons,
                    List.length_nil]
                  omega
                rw [he]
                exact heqv)
            (by
              simp only [List.length_append, List.length_cons,
                List.length_nil]
              simp only [List.length_cons] at hj
              omega)
          obtain ⟨g, hg1, hg2⟩ := hres
          refine ⟨g, hg1, ?_⟩
          have he2 : pos + 1 - (buffer ++ [c]).length + j =
              pos - buffer.length + j := by
            simp only [List.length_append, List.length_cons, List.length_nil]
            omega
          rw [he2] at hg2
          exact hg2
        · have heqf : fonts_are_equivalent bufferFont
              (get_font_for_position pos original_runs st) = false := by
            simpa using heqv
          simp only [applySegmentAux, hbne, Bool.false_eq_true, if_false,
            heqf]
          rw [applySegmentAux_hom]
          rw [findFontInRuns_append]
          simp only [add_formatted_run, List.nil_append,
            runsTextLength_single]
          by_cases hjb : j < buffer.length
          · rw [if_pos hjb]
            refine ⟨copy_font_properties bufferFont Font.default, ?_, ?_⟩
            · exact findFontInRuns_single buffer _ j hjb
            · rw [copy_font_properties_default]
              exact hinv j hjb
          · rw [if_neg hjb]
            have hres := ih [c]
              (get_font_for_position pos original_runs st) (pos + 1)
              (j - buffer.length)
              (by simp)
              (fun jb hjb2 => by
                have hjb0 : jb = 0 := by simpa using hjb2
                subst hjb0
                have he : pos + 1 - [c].length + 0 = pos := by simp
                rw [he]
                exact fonts_are_equivalent_refl _)
              (by
                simp only [List.length_cons, List.length_nil]
                simp only [List.length_cons] at hj
                omega)
            obtain ⟨g, hg1, hg2⟩ := hres
            refine ⟨g, hg1, ?_⟩
            have he2 : pos + 1 - [c].length + (j - buffer.length) =
                pos - buffer.length + j := by
              simp only [List.length_cons, List.length_nil]
              omega
            rw [he2] at hg2
            exact hg2

theorem runsTextLength_append (xs ys : List RunInfo) :
    runsTextLength (xs ++ ys) = runsTextLength xs + runsTextLength ys := by
  simp [runsTextLength]

/-- Fonts across a whole replacement pass: every position of the remaining
suffix lying outside the matched spans keeps (up to comparator equivalence)
the font of its original absolute position, found at its remapped offset in
the rebuilt run list. -/
theorem replaceLoop_font (ft find repl : Str) (original_runs : List RunInfo)
    (st : Font) (hf : find ≠ []) :
    ∀ fuel cp p, ft.length + 1 - cp ≤ fuel →
      p < (ft.drop cp).length →
      outsideSpans (ft.drop cp) find p →
      ∃ g, findFontInRuns (remapPos (ft.drop cp) find repl p)
          (replaceLoop fuel ft find repl original_runs st cp [] 0).1 =
            some g ∧
        fonts_are_equivalent g
          (get_font_for_position (cp + p) original_runs st) = true := by
  intro fuel
  induction fuel with
  | zero =>
      intro cp p hfu hp hout
      exfalso
      simp only [List.length_drop] at hp
      omega
  | succ fuel ih =>
      intro cp p hfu hp hout
      by_cases hlt : cp < ft.length
      · simp only [replaceLoop, hlt, if_true]
        cases hfs : findSub (ft.drop cp) find with
        | none =>
            have hff : findFrom ft find cp = none := by
              simp [findFrom, hfs]
            rw [hff]
            rw [remapPos_of_none _ _ _ _ hfs]
            have hslice : pySlice ft cp ft.length = ft.drop cp := by
              simp only [pySlice]
              rw [List.take_of_length_le (by simp)]
            rw [hslice]
            have hres := applySegmentAux_font original_runs st (ft.drop cp)
              [] Font.default cp p (by simp)
              (fun jb hjb => by simp at hjb)
              (by simpa using hp)
            obtain ⟨g, hg1, hg2⟩ := hres
            refine ⟨g, hg1, ?_⟩
            simpa using hg2
        | some m =>
            have hff : findFrom ft find cp = some (m + cp) := by
              simp [findFrom, hfs]
            simp only [hff]
            rw [replaceLoop_hom]
            obtain ⟨-, -, e3⟩ := findSub_some_spec (ft.drop cp) find repl m
              hf hfs
            have hslice : pySlice ft cp (m + cp) = (ft.drop cp).take m := by
              simp only [pySlice]
              congr 1
              omega
            have hseglen :
                runsTextLength (apply_formatted_segment []
                  (pySlice ft cp (m + cp)) original_runs st cp) = m := by
              rw [runsTextLength_eq, runsText_apply_formatted_segment,
                runsText_nil, List.nil_append, hslice, List.length_take]
              omega
            rcases outsideSpans_of_some (ft.drop cp) find m p hf hfs hout with
              hpm | ⟨hge, hout2⟩
            · rw [remapPos_of_some_lt _ _ _ _ _ hf hfs hpm]
              rw [findFontInRuns_append]
              rw [if_pos (by
                simp only [add_formatted_run, runsTextLength_append,
                  hseglen, runsTextLength_single]
                omega)]
              simp only [add_formatted_run]
              rw [findFontInRuns_append]
              rw [if_pos (by rw [hseglen]; omega)]
              have hres := applySegmentAux_font original_runs st
                (pySlice ft cp (m + cp)) [] Font.default cp p (by simp)
                (fun jb hjb => by simp at hjb)
                (by
                  simp only [List.length_nil, Nat.zero_add, hslice,
                    List.length_take]
                  omega)
              obtain ⟨g, hg1, hg2⟩ := hres
              refine ⟨g, hg1, ?_⟩
              simpa using hg2
            · have hdd : ft.drop (m + cp + find.length) =
                  (ft.drop cp).drop (m + find.length) := by
                rw [List.drop_drop]
                congr 1
                omega
              have hfpos : 0 < find.length := List.length_pos.mpr hf
              have hres := ih (m + cp + find.length) (p - (m + find.length))
                (by omega)
                (by
                  rw [hdd]
                  simp only [List.length_drop] at hp ⊢
                  omega)
                (by rw [hdd]; exact hout2)
              obtain ⟨g, hg1, hg2⟩ := hres
              rw [remapPos_of_some_ge _ _ _ _ _ hf hfs hge]
              refine ⟨g, ?_, ?_⟩
              · rw [findFontInRuns_append]
                rw [if_neg (by
                  simp only [add_formatted_run, runsTextLength_append,
                    hseglen, runsTextLength_single]
                  omega)]
                have hsub : m + repl.length +
                    remapPos ((ft.drop cp).drop (m + find.length)) find repl
                      (p - (m + find.length)) -
                    runsTextLength (add_formatted_run
                      (apply_formatted_segment [] (pySlice ft cp (m + cp))
                        original_runs st cp) repl
                      (get_font_for_position (m + cp) original_runs st)) =
                    remapPos ((ft.drop cp).drop (m + find.length)) find repl
                      (p - (m + find.length)) := by
                  simp only [add_formatted_run, runsTextLength_append,
                    hseglen, runsTextLength_single]
                  omega
                rw [hsub, ← hdd]
                exact hg1
              · have he : m + cp + find.length + (p - (m + find.length)) =
                    cp + p := by omega
                rw [he] at hg2
                exact hg2
      · exfalso
        simp only [List.length_drop] at hp
        omega

/-- C5: after a replacement pass, every character position of the original
text lying outside all matched spans carries — at its offset remapped by the
cumulative length delta of the preceding replacements — a descriptor the
comparator deems equivalent to the descriptor it had before the pass. -/
theorem C5_formatting_locality (p : Paragraph) (S R : Str) (pos : Nat)
    (hS : S ≠ []) (hpos : pos < p.text.length)
    (hout : outsideSpans p.text S pos) :
    fonts_are_equivalent
      (get_font_for_position (remapPos p.text S R pos)
        (replace_in_paragraph p S R).1.runs
        (replace_in_paragraph p S R).1.styleFont)
      (get_font_for_position pos p.runs p.styleFont) = true := by
  have hfe : S.isEmpty = false := by
    cases S with
    | nil => exact absurd rfl hS
    | cons a l => rfl
  unfold replace_in_paragraph
  rw [hfe]
  cases hc : containsSub p.text S with
  | false =>
      simp only [Bool.false_or, Bool.not_false, if_true]
      have hfs : findSub p.text S = none := by
        unfold containsSub at hc
        cases hx : findSub p.text S
        · rfl
        · rw [hx] at hc
          simp at hc
      rw [remapPos_of_none _ _ _ _ hfs]
      exact fonts_are_equivalent_refl _
  | true =>
      simp only [Bool.false_or, Bool.not_true, if_false]
      have hres := replaceLoop_font p.text S R p.runs p.styleFont hS
        (p.text.length + 1) 0 pos (by omega) (by simpa using hpos)
        (by simpa using hout)
      rw [List.drop_zero] at hres
      obtain ⟨g, hg1, hg2⟩ := hres
      have hgf : get_font_for_position (remapPos p.text S R pos)
          (replaceLoop (p.text.length + 1) p.text S R p.runs p.styleFont 0
            [] 0).1 p.styleFont = g := by
        unfold get_font_for_position
        rw [hg1]
      have hfinal : fonts_are_equivalent
          (get_font_for_position (remapPos p.text S R pos)
            (replaceLoop (p.text.length + 1) p.text S R p.runs p.styleFont 0
              [] 0).1 p.styleFont)
          (get_font_for_position pos p.runs p.styleFont) = true := by
        rw [hgf]
        simpa using hg2
      exact hfinal

/-- A two-run paragraph `"ab"`, `"a"` bold and `"b"` italic. -/
def pAB : Paragraph :=
  ⟨[⟨['a'], boldFont⟩, ⟨['b'], italicFont⟩], plainFont⟩

/-- Witness for C5: replacing `"b"` with `"xy"` in `pAB`; position 0 is
outside the single matched span `[1, 2)`. -/
theorem C5_witness :
    (['b'] : Str) ≠ [] ∧ 0 < pAB.text.length ∧
      outsideSpans pAB.text ['b'] 0 ∧
      fonts_are_equivalent
        (get_font_for_position (remapPos pAB.text ['b'] ['x', 'y'] 0)
          (replace_in_paragraph pAB ['b'] ['x', 'y']).1.runs
          (replace_in_paragraph pAB ['b'] ['x', 'y']).1.styleFont)
        (get_font_for_position 0 pAB.runs pAB.styleFont) = true := by
  have hms : matchStarts pAB.text ['b'] = [1] := by
    simp [pAB, Paragraph.text, matchStarts, List.isPrefixOf]
  have hout : outsideSpans pAB.text ['b'] 0 := by
    unfold outsideSpans
    rw [hms]
    intro m hm
    simp only [List.mem_singleton] at hm
    subst hm
    left
    omega
  exact ⟨by decide, by decide, hout,
    C5_formatting_locality pAB ['b'] ['x', 'y'] 0 (by decide) (by decide)
      hout⟩

end WordMCP
